import Mathlib

/-!
Verification development for the core parser of the HoneyBadger (ratel) JavaScript
parser. The development shallowly embeds the two parser implementations found in
the repository:

* the Vec-based recursive-descent parser of `src/core/src/parser.rs`
  (functions named exactly as there: `array_expression`, `for_statement`, ...);
* the arena-based statement parser of `src/core/src/parser/statement.rs`, its
  macros (`src/core/src/parser/macros.rs`) and its error-recovery layer
  (`src/core/src/parser/error.rs`) (their embeddings carry an `a_` prefix).

The token and AST data types, the operator table, and the tokenizer are not part
of the source files (lexicon.rs, grammar.rs, operator.rs and tokenizer.rs are not
in the repository snapshot); where they are needed they are modelled from the
specification, and each such definition says so in its doc comment. The parsers
work over a stream of tokens, each carrying the flag "a line terminator preceded
this token" which models the tokenizer's `asi()` query. Machine recursion of the
Rust parser is modelled with an explicit fuel argument; running out of fuel is a
distinct error value `OutOfFuel` that the real parser never produces.
-/

namespace HB

/-- Modelled from the spec (section 3, `Declaration(kind)`): the variable
declaration kinds. The defining file (grammar.rs) is not in the snapshot. -/
inductive VariableDeclarationKind where
  | Var
  | Let
  | Const
  deriving DecidableEq, Repr

/-- Modelled from the spec (section 3, `Literal(Value)`): literal values. The
string contents of `Number` and `RegEx` are kept as source slices, `Binary` is
an eagerly decoded integer literal. -/
inductive Value where
  | True
  | False
  | Null
  | Undefined
  | Number (s : String)
  | Binary (n : Nat)
  | String (s : String)
  | RegEx (s : String)
  deriving DecidableEq, Repr

/-- Modelled from the spec (section 3, `Template(kind)`): a template chunk either
ends in an interpolation opener or closes the template. -/
inductive TemplateKind where
  | Open (s : String)
  | Closed (s : String)
  deriving DecidableEq, Repr

/-- Modelled from the spec (section 4.4 operator table; operator.rs is not in the
snapshot): the operator kinds used by the parser. -/
inductive Op where
  | FatArrow
  | New
  | Increment
  | Decrement
  | LogicalNot
  | BitwiseNot
  | Typeof
  | Void
  | Delete
  | Multiplication
  | Division
  | Remainder
  | Exponent
  | Addition
  | Subtraction
  | BitShiftLeft
  | BitShiftRight
  | UBitShiftRight
  | Lesser
  | LesserEquals
  | Greater
  | GreaterEquals
  | Instanceof
  | In
  | StrictEquality
  | StrictInequality
  | Equality
  | Inequality
  | BitwiseAnd
  | BitwiseXor
  | BitwiseOr
  | LogicalAnd
  | LogicalOr
  | Nullish
  | Conditional
  | Assign
  | AddAssign
  | SubtractAssign
  | MultiplyAssign
  | DivideAssign
  | RemainderAssign
  | ExponentAssign
  | BSLAssign
  | BSRAssign
  | UBSRAssign
  | BitAndAssign
  | BitXorAssign
  | BitOrAssign
  | Accessor
  deriving DecidableEq, Repr

/-- Modelled from the spec (section 4.4 table): the binding power of each
operator. Assignments and the fat arrow sit at 3, the ternary at 4, member
access at 19; the unary-only operators carry the unary row's 15 (they are
rejected in infix position by `infixOk` before the power matters). -/
def Op.bindingPower : Op → Nat
  | .FatArrow => 3
  | .New => 15
  | .Increment | .Decrement => 16
  | .LogicalNot | .BitwiseNot | .Typeof | .Void | .Delete => 15
  | .Multiplication | .Division | .Remainder => 14
  | .Exponent => 15
  | .Addition | .Subtraction => 13
  | .BitShiftLeft | .BitShiftRight | .UBitShiftRight => 12
  | .Lesser | .LesserEquals | .Greater | .GreaterEquals | .Instanceof | .In => 11
  | .StrictEquality | .StrictInequality | .Equality | .Inequality => 10
  | .BitwiseAnd => 9
  | .BitwiseXor => 8
  | .BitwiseOr => 7
  | .LogicalAnd => 6
  | .LogicalOr | .Nullish => 5
  | .Conditional => 4
  | .Assign | .AddAssign | .SubtractAssign | .MultiplyAssign | .DivideAssign
  | .RemainderAssign | .ExponentAssign | .BSLAssign | .BSRAssign | .UBSRAssign
  | .BitAndAssign | .BitXorAssign | .BitOrAssign => 3
  | .Accessor => 19

/-- Modelled from the spec (section 4.4, unary row): the operators accepted in
prefix position. -/
def Op.prefixOk : Op → Bool
  | .LogicalNot | .BitwiseNot | .Addition | .Subtraction | .Increment
  | .Decrement | .Typeof | .Void | .Delete | .New => true
  | _ => false

/-- Modelled from the spec (section 4.4 table): the operators accepted as plain
binary (or assignment) infix operators. `Increment`, `Decrement`, `Accessor`,
`Conditional` and `FatArrow` are intercepted by `infix_expression` before this
test is consulted. -/
def Op.infixOk : Op → Bool
  | .Multiplication | .Division | .Remainder | .Exponent
  | .Addition | .Subtraction
  | .BitShiftLeft | .BitShiftRight | .UBitShiftRight
  | .Lesser | .LesserEquals | .Greater | .GreaterEquals | .Instanceof | .In
  | .StrictEquality | .StrictInequality | .Equality | .Inequality
  | .BitwiseAnd | .BitwiseXor | .BitwiseOr | .LogicalAnd | .LogicalOr | .Nullish
  | .Assign | .AddAssign | .SubtractAssign | .MultiplyAssign | .DivideAssign
  | .RemainderAssign | .ExponentAssign | .BSLAssign | .BSRAssign | .UBSRAssign
  | .BitAndAssign | .BitXorAssign | .BitOrAssign => true
  | _ => false

/-- Modelled from the spec (section 3, Token): the token classification produced
by the lexer (lexicon.rs is not in the snapshot). -/
inductive Token where
  | ParenOpen
  | ParenClose
  | BraceOpen
  | BraceClose
  | BracketOpen
  | BracketClose
  | Semicolon
  | Comma
  | Colon
  | This
  | Function
  | Return
  | Break
  | Class
  | Extends
  | Static
  | If
  | Else
  | While
  | Do
  | For
  | Throw
  | Try
  | Catch
  | Declaration (kind : VariableDeclarationKind)
  | Identifier (name : String)
  | Literal (value : Value)
  | Operator (op : Op)
  | Template (kind : TemplateKind)
  | EndOfProgram
  deriving DecidableEq, Repr

/-- Modelled from the spec (section 9, word-tokens-as-identifiers): the word view
of a token, used to accept reserved words in key and member positions. -/
def Token.as_word : Token → Option String
  | .This => some "this"
  | .Function => some "function"
  | .Return => some "return"
  | .Break => some "break"
  | .Class => some "class"
  | .Extends => some "extends"
  | .Static => some "static"
  | .If => some "if"
  | .Else => some "else"
  | .While => some "while"
  | .Do => some "do"
  | .For => some "for"
  | .Throw => some "throw"
  | .Try => some "try"
  | .Catch => some "catch"
  | .Declaration .Var => some "var"
  | .Declaration .Let => some "let"
  | .Declaration .Const => some "const"
  | .Literal .True => some "true"
  | .Literal .False => some "false"
  | .Literal .Null => some "null"
  | .Literal .Undefined => some "undefined"
  | .Operator .In => some "in"
  | .Operator .Instanceof => some "instanceof"
  | .Operator .Typeof => some "typeof"
  | .Operator .New => some "new"
  | .Operator .Void => some "void"
  | .Operator .Delete => some "delete"
  | .Identifier name => some name
  | _ => none

/-- Error values of the parser, mirroring `error::Error` of the source with the
byte positions dropped (they come from the tokenizer, which is not in the
snapshot). `OutOfFuel` is an artifact of the fuel-based embedding of the Rust
recursion; the real parser never produces it. -/
inductive Err where
  | UnexpectedToken
  | UnexpectedEndOfProgram
  | OutOfFuel
  deriving DecidableEq, Repr

/-- One token of the stream together with the flag "a line terminator preceded
this token", which models the tokenizer's `asi()` query of the spec
(section 4.1, `asi_possible`). -/
structure Item where
  tok : Token
  nl : Bool
  deriving DecidableEq, Repr

mutual

/-- The `Expression` AST family, as produced by `src/core/src/parser.rs`
(the defining file grammar.rs is not in the snapshot; the shapes follow the
spec's section 3 table and the constructor uses in parser.rs). On `Binary`,
`parenthesized` is the flag set by `Expression::parenthesize`. -/
inductive Expression where
  | Void
  | This
  | Literal (value : Value)
  | Identifier (name : String)
  | Array (elems : List Expression)
  | Sequence (elems : List Expression)
  | Object (members : List ObjectMember)
  | Prefix (operator : Op) (operand : Expression)
  | Postfix (operator : Op) (operand : Expression)
  | Binary (parenthesized : Bool) (operator : Op) (left right : Expression)
  | Conditional (test consequent alternate : Expression)
  | ArrowFunction (params : List Parameter) (body : Statement)
  | Function (name : Option String) (params : List Parameter) (body : List Statement)
  | Call (callee : Expression) (arguments : List Expression)
  | Member (object : Expression) (property : String)
  | ComputedMember (object property : Expression)
  | Template (tag : Option Expression) (expressions : List Expression) (quasis : List String)
  | Error

/-- Object literal keys, as used by `object_member` in parser.rs. -/
inductive ObjectKey where
  | Literal (s : String)
  | Binary (n : Nat)
  | Computed (e : Expression)

/-- Object literal members, as produced by `object_member` in parser.rs. -/
inductive ObjectMember where
  | Shorthand (key : String)
  | Value (key : ObjectKey) (value : Expression)
  | Method (key : ObjectKey) (params : List Parameter) (body : List Statement)

/-- A function parameter: a name with an optional default value
(spec section 3, `Parameter`). -/
inductive Parameter where
  | mk (name : String) (default : Option Expression)

/-- A variable declarator of the Vec-based parser: an identifier name with an
optional initializer (`VariableDeclarator` in parser.rs). -/
inductive Declarator where
  | mk (name : String) (value : Option Expression)

/-- Class member keys, as used by `class_statement` in parser.rs. -/
inductive ClassKey where
  | Literal (s : String)
  | Number (s : String)
  | Binary (n : Nat)
  | Computed (e : Expression)

/-- Class members, as produced by `class_member` in parser.rs. -/
inductive ClassMember where
  | Constructor (params : List Parameter) (body : List Statement)
  | Method (isStatic : Bool) (key : ClassKey) (params : List Parameter) (body : List Statement)
  | Property (isStatic : Bool) (key : ClassKey) (value : Expression)

/-- The `Statement` AST family, as produced by `src/core/src/parser.rs`.
The `Class` field named `extends` in the source is called `superClass` here
because `extends` is reserved in Lean. -/
inductive Statement where
  | Empty
  | Block (body : List Statement)
  | Expression (expression : HB.Expression)
  | VariableDeclaration (kind : VariableDeclarationKind) (declarators : List Declarator)
  | Return (value : Option Expression)
  | Break (label : Option String)
  | Throw (value : Expression)
  | Try (body : Statement) (error : String) (handler : Statement)
  | If (test : Expression) (consequent : Statement) (alternate : Option Statement)
  | While (test : Expression) (body : Statement)
  | For (init : Option Statement) (test update : Option Expression) (body : Statement)
  | ForIn (left : Statement) (right : Expression) (body : Statement)
  | ForOf (left : Statement) (right : Expression) (body : Statement)
  | Function (name : String) (params : List Parameter) (body : List Statement)
  | Class (name : String) (superClass : Option String) (body : List ClassMember)
  | Labeled (label : String) (body : Statement)
  | Error

end

/-- The name of a parameter. -/
def Parameter.name : Parameter → String
  | .mk n _ => n

/-- The default value of a parameter. -/
def Parameter.default : Parameter → Option Expression
  | .mk _ d => d

/-- The name of a declarator. -/
def Declarator.name : Declarator → String
  | .mk n _ => n

/-- The initializer of a declarator. -/
def Declarator.value : Declarator → Option Expression
  | .mk _ v => v

/-- The constructor `Expression::binary` of grammar.rs (modelled from its uses in
parser.rs): a binary node with the `parenthesized` flag cleared. -/
def Expression.binary (left : Expression) (op : Op) (right : Expression) : Expression :=
  .Binary false op left right

/-- The constructor `Expression::member` of grammar.rs (modelled from its uses in
parser.rs). -/
def Expression.member (object : Expression) (property : String) : Expression :=
  .Member object property

/-- Modelled from the spec (sections 3 and 4.5): `Expression::parenthesize` marks
a binary node with the `parenthesized` flag and leaves every other expression
unchanged (grammar.rs is not in the snapshot). -/
def Expression.parenthesize : Expression → Expression
  | .Binary _ op left right => .Binary true op left right
  | e => e

/-- The conversion `Statement::from(expression)` used via `.into()` in
parser.rs. -/
def Statement.fromExpression (e : HB.Expression) : Statement :=
  .Expression e

/-- Whether a class key spells `constructor` (`ClassKey::is_constructor`,
modelled from its use in `class_member` and the spec's section 4.6). -/
def ClassKey.is_constructor : ClassKey → Bool
  | .Literal s => s = "constructor"
  | _ => false

/-- The state of the Vec-based parser: the remaining token stream, the optional
stored lookahead (the `token: Option<Token>` field of `Parser`), and the flag
returned by the tokenizer's `asi()` for the most recently fetched token. -/
structure St where
  stream : List Item
  tok : Option Token
  nl : Bool
  deriving DecidableEq, Repr

/-- The tokenizer's `get_token`: take the next token off the stream, recording
whether a line terminator preceded it. Asking for a token after the
`EndOfProgram` item has been taken is the `UnexpectedEndOfProgram` error
(spec section 7). -/
def get_token (s : St) : Except Err (Token × St) :=
  match s.stream with
  | [] => .error .UnexpectedEndOfProgram
  | i :: rest => .ok (i.tok, { s with stream := rest, nl := i.nl })

/-- The `peek!` macro of parser.rs: return the stored lookahead, fetching and
storing one if none is stored. -/
def peekT (s : St) : Except Err (Token × St) :=
  match s.tok with
  | some t => .ok (t, s)
  | none => do
    let (t, s) ← get_token s
    .ok (t, { s with tok := some t })

/-- The `next!` macro of parser.rs: consume the stored lookahead if any,
otherwise fetch directly from the tokenizer. -/
def nextT (s : St) : Except Err (Token × St) :=
  match s.tok with
  | some t => .ok (t, { s with tok := none })
  | none => get_token s

/-- The `consume` method of parser.rs: drop the stored lookahead. -/
def St.consume (s : St) : St :=
  { s with tok := none }

/-- The tokenizer's `asi()` query: whether a line terminator preceded the most
recently fetched token. -/
def St.asi (s : St) : Bool :=
  s.nl

/-- The `expect!` macro of parser.rs: the next token must equal `t`. -/
def expectTk (t : Token) (s : St) : Except Err (Unit × St) := do
  let (t', s) ← nextT s
  if t' = t then .ok ((), s) else .error .UnexpectedToken

/-- The `expect_identifier!` macro of parser.rs: the next token must be an
identifier, whose name is returned. -/
def expect_identifier (s : St) : Except Err (String × St) := do
  let (t, s) ← nextT s
  match t with
  | .Identifier ident => .ok (ident, s)
  | _ => .error .UnexpectedToken

/-- The `expect_semicolon!` macro of parser.rs (lines 78 to 96): an explicit `;`
is consumed; `)`, `}` and `EndOfProgram` terminate the statement without being
consumed; any other lookahead is accepted exactly when the tokenizer's `asi()`
holds, and is an `UnexpectedToken` error otherwise. -/
def expect_semicolon (s : St) : Except Err (Unit × St) := do
  let (t, s) ← peekT s
  match t with
  | .Semicolon => .ok ((), s.consume)
  | .ParenClose | .BraceClose | .EndOfProgram => .ok ((), s)
  | _ => if s.asi then .ok ((), s) else .error .UnexpectedToken

/-- The tokenizer re-entry `read_regular_expression`, modelled from the spec
(section 4.1): in the token-stream embedding the rescanned regular-expression
literal is the next stream item. -/
def regular_expression (s : St) : Except Err (Expression × St) :=
  match s.stream with
  | [] => .error .UnexpectedEndOfProgram
  | i :: rest =>
    match i.tok with
    | .Literal (.RegEx r) => .ok (.Literal (.RegEx r), { s with stream := rest, nl := i.nl })
    | _ => .error .UnexpectedToken

/-- The tokenizer re-entry `read_template_kind`, modelled from the spec
(section 4.1): in the token-stream embedding the next template chunk is the
next stream item. -/
def read_template_kind (s : St) : Except Err (TemplateKind × St) :=
  match s.stream with
  | [] => .error .UnexpectedEndOfProgram
  | i :: rest =>
    match i.tok with
    | .Template k => .ok (k, { s with stream := rest, nl := i.nl })
    | _ => .error .UnexpectedToken

/-- The parameter reinterpretation loop inside `arrow_function_expression`
(parser.rs lines 287 to 321): each element of a parenthesised sequence must be
an assignment binary with an identifier left side (giving a defaulted
parameter) or a plain identifier (giving a plain parameter); anything else is
an `UnexpectedToken` error. -/
def arrow_params_from_sequence : List Expression → Except Err (List Parameter)
  | [] => .ok []
  | e :: rest => do
    let p ←
      match e with
      | .Binary _ .Assign left right =>
        match left with
        | .Identifier name => .ok (Parameter.mk name (some right))
        | _ => .error .UnexpectedToken
      | .Identifier name => .ok (Parameter.mk name none)
      | _ => .error .UnexpectedToken
    let ps ← arrow_params_from_sequence rest
    .ok (p :: ps)

set_option maxHeartbeats 4000000 in
mutual

/-- The array literal loop of `array_expression` (parser.rs lines 129 to 153),
with the accumulated element list as an explicit argument. -/
def array_expression_items : Nat → List Expression → St → Except Err (List Expression × St)
  | 0, _, _ => .error .OutOfFuel
  | f+1, list, s => do
    let (t, s) ← nextT s
    match t with
    | .BracketClose => .ok (list, s)
    | .Comma => array_expression_items f (list ++ [.Void]) s
    | t => do
      let (e, s) ← expression_from_token f t 0 s
      let (t2, s) ← nextT s
      match t2 with
      | .BracketClose => .ok (list ++ [e], s)
      | .Comma => array_expression_items f (list ++ [e]) s
      | _ => .error .UnexpectedToken
termination_by structural f _ _ => f

/-- `Parser::array_expression` of parser.rs. -/
def array_expression : Nat → St → Except Err (Expression × St)
  | 0, _ => .error .OutOfFuel
  | f+1, s => do
    let (list, s) ← array_expression_items f [] s
    .ok (.Array list, s)
termination_by structural f _ => f

/-- The member loop of `object_member_list` (parser.rs lines 156 to 175), with
the accumulated member list as an explicit argument. -/
def object_member_list_items : Nat → List ObjectMember → St → Except Err (List ObjectMember × St)
  | 0, _, _ => .error .OutOfFuel
  | f+1, list, s => do
    let (t, s) ← nextT s
    match t with
    | .BraceClose => .ok (list, s)
    | t => do
      let (m, s) ← object_member f t s
      let (t2, s) ← nextT s
      match t2 with
      | .BraceClose => .ok (list ++ [m], s)
      | .Comma => object_member_list_items f (list ++ [m]) s
      | _ => .error .UnexpectedToken
termination_by structural f _ _ => f

/-- `Parser::object_member_list` of parser.rs. -/
def object_member_list : Nat → St → Except Err (List ObjectMember × St)
  | 0, _ => .error .OutOfFuel
  | f+1, s => object_member_list_items f [] s
termination_by structural f _ => f

/-- `Parser::object_member` of parser.rs (lines 178 to 225). The shorthand
early return lives in the `Identifier` arm; every other arm computes a key and
falls through to `object_member_with_key`. -/
def object_member : Nat → Token → St → Except Err (ObjectMember × St)
  | 0, _, _ => .error .OutOfFuel
  | f+1, token, s =>
    match token with
    | .Identifier key => do
      let (t, s) ← peekT s
      match t with
      | .Colon | .ParenOpen => object_member_with_key f (.Literal key) s
      | _ => .ok (.Shorthand key, s)
    | .BracketOpen => do
      let (e, s) ← expression f 0 s
      let ((), s) ← expectTk .BracketClose s
      object_member_with_key f (.Computed e) s
    | .Literal (.String key) => object_member_with_key f (.Literal key) s
    | .Literal (.Number key) => object_member_with_key f (.Literal key) s
    | .Literal (.Binary num) => object_member_with_key f (.Binary num) s
    | token =>
      match token.as_word with
      | some key => object_member_with_key f (.Literal key) s
      | none => .error .UnexpectedToken
termination_by structural f _ _ => f

/-- The tail of `object_member` (parser.rs lines 213 to 224): after the key, a
`:` introduces a value member and a `(` a method member. -/
def object_member_with_key : Nat → ObjectKey → St → Except Err (ObjectMember × St)
  | 0, _, _ => .error .OutOfFuel
  | f+1, key, s => do
    let (t, s) ← nextT s
    match t with
    | .Colon => do
      let (v, s) ← expression f 0 s
      .ok (.Value key v, s)
    | .ParenOpen => do
      let (params, s) ← parameter_list f s
      let (body, s) ← block_body f s
      .ok (.Method key params body, s)
    | _ => .error .UnexpectedToken
termination_by structural f _ _ => f

/-- `Parser::object_expression` of parser.rs. -/
def object_expression : Nat → St → Except Err (Expression × St)
  | 0, _ => .error .OutOfFuel
  | f+1, s => do
    let (members, s) ← object_member_list f s
    .ok (.Object members, s)
termination_by structural f _ => f

/-- `Parser::block_statement` of parser.rs. -/
def block_statement : Nat → St → Except Err (Statement × St)
  | 0, _ => .error .OutOfFuel
  | f+1, s => do
    let (body, s) ← block_body_tail f s
    .ok (.Block body, s)
termination_by structural f _ => f

/-- The statement loop of `block_body_tail` (parser.rs lines 240 to 251), with
the accumulated body as an explicit argument. -/
def block_body_tail_items : Nat → List Statement → St → Except Err (List Statement × St)
  | 0, _, _ => .error .OutOfFuel
  | f+1, body, s => do
    let (t, s) ← nextT s
    match t with
    | .BraceClose => .ok (body, s)
    | t => do
      let (st, s) ← statement f t s
      block_body_tail_items f (body ++ [st]) s
termination_by structural f _ _ => f

/-- `Parser::block_body_tail` of parser.rs. -/
def block_body_tail : Nat → St → Except Err (List Statement × St)
  | 0, _ => .error .OutOfFuel
  | f+1, s => block_body_tail_items f [] s
termination_by structural f _ => f

/-- `Parser::block_body` of parser.rs: expect `{`, then the body tail. -/
def block_body : Nat → St → Except Err (List Statement × St)
  | 0, _ => .error .OutOfFuel
  | f+1, s => do
    let ((), s) ← expectTk .BraceOpen s
    block_body_tail f s
termination_by structural f _ => f

/-- `Parser::arrow_function_expression` of parser.rs (lines 259 to 338): convert
the parenthesised expression (if any) to a parameter list, then parse a block
or expression body. The lone-binary case requires the `parenthesized` flag;
the sequence elements (via `arrow_params_from_sequence`) do not. -/
def arrow_function_expression : Nat → Option Expression → St → Except Err (Expression × St)
  | 0, _, _ => .error .OutOfFuel
  | f+1, p, s => do
    let params ←
      match p with
      | none => .ok ([] : List Parameter)
      | some (.Identifier name) => .ok [Parameter.mk name none]
      | some (.Binary true .Assign left right) =>
        match left with
        | .Identifier value => .ok [Parameter.mk value (some right)]
        | _ => .error .UnexpectedToken
      | some (.Sequence list) => arrow_params_from_sequence list
      | some _ => .error .UnexpectedToken
    let (t, s) ← nextT s
    match t with
    | .BraceOpen => do
      let (body, s) ← block_body_tail f s
      .ok (.ArrowFunction params (.Block body), s)
    | t => do
      let (e, s) ← expression_from_token f t 0 s
      .ok (.ArrowFunction params (Statement.fromExpression e), s)
termination_by structural f _ _ => f

/-- `Parser::prefix_expression` of parser.rs: a prefix operator applied to an
expression parsed at binding power 15. -/
def prefix_expression : Nat → Op → St → Except Err (Expression × St)
  | 0, _, _ => .error .OutOfFuel
  | f+1, op, s =>
    if !op.prefixOk then .error .UnexpectedToken
    else do
      let (operand, s) ← expression f 15 s
      .ok (.Prefix op operand, s)
termination_by structural f _ _ => f

/-- `Parser::infix_expression` of parser.rs (lines 353 to 397). -/
def infix_expression : Nat → Expression → Nat → Op → St → Except Err (Expression × St)
  | 0, _, _, _, _ => .error .OutOfFuel
  | f+1, left, bp, op, s =>
    match op with
    | .Increment | .Decrement => .ok (.Postfix op left, s)
    | .Accessor => do
      let (t, s) ← nextT s
      match t with
      | .Identifier ident => .ok (Expression.member left ident, s)
      | t =>
        match t.as_word with
        | some ident => .ok (Expression.member left ident, s)
        | none => .error .UnexpectedToken
    | .Conditional => do
      let (consequent, s) ← expression f bp s
      let ((), s) ← expectTk .Colon s
      let (alternate, s) ← expression f bp s
      .ok (.Conditional left consequent alternate, s)
    | .FatArrow => arrow_function_expression f (some left) s
    | op =>
      if !op.infixOk then .error .UnexpectedToken
      else do
        let (right, s) ← expression f bp s
        .ok (Expression.binary left op right, s)
termination_by structural f _ _ _ _ => f

/-- `Parser::function_expression` of parser.rs: an optional name, then the
parameter list and the block body. -/
def function_expression : Nat → St → Except Err (Expression × St)
  | 0, _ => .error .OutOfFuel
  | f+1, s => do
    let (t, s) ← nextT s
    let (name, s) ←
      match t with
      | .Identifier name => do
        let ((), s) ← expectTk .ParenOpen s
        .ok (some name, s)
      | .ParenOpen => .ok ((none : Option String), s)
      | _ => .error .UnexpectedToken
    let (params, s) ← parameter_list f s
    let (body, s) ← block_body f s
    .ok (.Function name params body, s)
termination_by structural f _ => f

/-- The quasi loop of `template_expression` (parser.rs lines 424 to 443), with
the accumulated expressions and quasis as explicit arguments: an `Open` chunk
records its quasi, parses one interpolated expression, expects `}` and re-enters
the lexer for the next chunk; a `Closed` chunk records the final quasi. -/
def template_expression_items :
    Nat → List Expression → List String → TemplateKind → St →
    Except Err ((List Expression × List String) × St)
  | 0, _, _, _, _ => .error .OutOfFuel
  | f+1, expressions, quasis, kind, s =>
    match kind with
    | .Open slice => do
      let (e, s) ← sequence_or_expression f s
      let ((), s) ← expectTk .BraceClose s
      let (kind', s) ← read_template_kind s
      template_expression_items f (expressions ++ [e]) (quasis ++ [slice]) kind' s
    | .Closed slice => .ok ((expressions, quasis ++ [slice]), s)
termination_by structural f _ _ _ _ => f

/-- `Parser::template_expression` of parser.rs (lines 419 to 451). -/
def template_expression : Nat → Option Expression → TemplateKind → St → Except Err (Expression × St)
  | 0, _, _, _ => .error .OutOfFuel
  | f+1, tag, kind, s => do
    let ((expressions, quasis), s) ← template_expression_items f [] [] kind s
    .ok (.Template tag expressions quasis, s)
termination_by structural f _ _ _ => f

/-- `Parser::paren_expression` of parser.rs (lines 454 to 470): an immediate `)`
must begin an empty-parameter arrow function; otherwise a full
sequence-or-expression is parsed, `)` is expected and the result is marked
parenthesized. -/
def paren_expression : Nat → St → Except Err (Expression × St)
  | 0, _ => .error .OutOfFuel
  | f+1, s => do
    let (t, s) ← nextT s
    match t with
    | .ParenClose => do
      let ((), s) ← expectTk (.Operator .FatArrow) s
      arrow_function_expression f none s
    | t => do
      let (e, s) ← expression_from_token f t 0 s
      let (e, s) ← sequence_or f e s
      let ((), s) ← expectTk .ParenClose s
      .ok (e.parenthesize, s)
termination_by structural f _ => f

/-- `Parser::sequence_or_expression` of parser.rs. -/
def sequence_or_expression : Nat → St → Except Err (Expression × St)
  | 0, _ => .error .OutOfFuel
  | f+1, s => do
    let (t, s) ← nextT s
    sequence_or_expression_from_token f t s
termination_by structural f _ => f

/-- `Parser::sequence_or_expression_from_token` of parser.rs. -/
def sequence_or_expression_from_token : Nat → Token → St → Except Err (Expression × St)
  | 0, _, _ => .error .OutOfFuel
  | f+1, token, s => do
    let (first, s) ← expression_from_token f token 0 s
    sequence_or f first s
termination_by structural f _ _ => f

/-- The comma loop of `sequence_or` (parser.rs lines 492 to 501), with the
accumulated element list as an explicit argument. -/
def sequence_or_items : Nat → List Expression → St → Except Err (Expression × St)
  | 0, _, _ => .error .OutOfFuel
  | f+1, list, s => do
    let (t, s) ← peekT s
    match t with
    | .Comma => do
      let s := s.consume
      let (e, s) ← expression f 0 s
      sequence_or_items f (list ++ [e]) s
    | _ => .ok (.Sequence list, s)
termination_by structural f _ _ => f

/-- `Parser::sequence_or` of parser.rs (lines 485 to 507): if the lookahead is a
comma, open a sequence seeded with the first two elements; otherwise return the
expression unchanged. -/
def sequence_or : Nat → Expression → St → Except Err (Expression × St)
  | 0, _, _ => .error .OutOfFuel
  | f+1, first, s => do
    let (t, s) ← peekT s
    match t with
    | .Comma => do
      let s := s.consume
      let (second, s) ← expression f 0 s
      sequence_or_items f [first, second] s
    | _ => .ok (first, s)
termination_by structural f _ _ => f

/-- The argument loop of `expression_list` (parser.rs lines 509 to 529), with
the accumulated list as an explicit argument. -/
def expression_list_items : Nat → List Expression → St → Except Err (List Expression × St)
  | 0, _, _ => .error .OutOfFuel
  | f+1, list, s => do
    let (t, s) ← nextT s
    match t with
    | .ParenClose => .ok (list, s)
    | t => do
      let (e, s) ← expression_from_token f t 0 s
      let (t2, s) ← nextT s
      match t2 with
      | .ParenClose => .ok (list ++ [e], s)
      | .Comma => expression_list_items f (list ++ [e]) s
      | _ => .error .UnexpectedToken
termination_by structural f _ _ => f

/-- `Parser::expression_list` of parser.rs. -/
def expression_list : Nat → St → Except Err (List Expression × St)
  | 0, _ => .error .OutOfFuel
  | f+1, s => expression_list_items f [] s
termination_by structural f _ => f

/-- `Parser::expression` of parser.rs. -/
def expression : Nat → Nat → St → Except Err (Expression × St)
  | 0, _, _ => .error .OutOfFuel
  | f+1, lbp, s => do
    let (t, s) ← nextT s
    expression_from_token f t lbp s
termination_by structural f _ _ => f

/-- `Parser::expression_from_token` of parser.rs (lines 538 to 554): the nud
dispatch, followed by `complex_expression`. -/
def expression_from_token : Nat → Token → Nat → St → Except Err (Expression × St)
  | 0, _, _, _ => .error .OutOfFuel
  | f+1, token, lbp, s => do
    let (left, s) ←
      match token with
      | .This => .ok (Expression.This, s)
      | .Literal value => .ok (.Literal value, s)
      | .Identifier value => .ok (.Identifier value, s)
      | .Operator .Division => regular_expression s
      | .Operator optype => prefix_expression f optype s
      | .ParenOpen => paren_expression f s
      | .BracketOpen => array_expression f s
      | .BraceOpen => object_expression f s
      | .Function => function_expression f s
      | .Template kind => template_expression f none kind s
      | _ => .error .UnexpectedToken
    complex_expression f left lbp s
termination_by structural f _ _ _ => f

/-- `Parser::complex_expression` of parser.rs (lines 557 to 619): the Pratt led
loop. Each arm that consumes input recurses with the extended left
expression; every other lookahead ends the loop. -/
def complex_expression : Nat → Expression → Nat → St → Except Err (Expression × St)
  | 0, _, _, _ => .error .OutOfFuel
  | f+1, left, lbp, s => do
    let (t, s) ← peekT s
    match t with
    | .Operator op =>
      let rbp := op.bindingPower
      if lbp > rbp then .ok (left, s)
      else do
        let s := s.consume
        let (left', s) ← infix_expression f left rbp op s
        complex_expression f left' lbp s
    | .ParenOpen =>
      if lbp > 18 then .ok (left, s)
      else do
        let s := s.consume
        let (arguments, s) ← expression_list f s
        complex_expression f (.Call left arguments) lbp s
    | .BracketOpen =>
      if lbp > 19 then .ok (left, s)
      else do
        let s := s.consume
        let (property, s) ← sequence_or_expression f s
        let ((), s) ← expectTk .BracketClose s
        complex_expression f (.ComputedMember left property) lbp s
    | .Template kind =>
      if lbp > 0 then .ok (left, s)
      else do
        let s := s.consume
        let (e, s) ← template_expression f (some left) kind s
        complex_expression f e lbp s
    | _ => .ok (left, s)
termination_by structural f _ _ _ => f

/-- `Parser::variable_declaration` of parser.rs: the declaration statement
without the trailing semicolon (used by `for` heads). -/
def variable_declaration : Nat → VariableDeclarationKind → St → Except Err (Statement × St)
  | 0, _, _ => .error .OutOfFuel
  | f+1, kind, s => do
    let (declarators, s) ← variable_declarators f s
    .ok (.VariableDeclaration kind declarators, s)
termination_by structural f _ _ => f

/-- The declarator loop of `variable_declarators` (parser.rs lines 630 to 652),
with the accumulated list as an explicit argument. -/
def variable_declarators_items : Nat → List Declarator → St → Except Err (List Declarator × St)
  | 0, _, _ => .error .OutOfFuel
  | f+1, list, s => do
    let (name, s) ← expect_identifier s
    let (t, s) ← peekT s
    let (value, s) ←
      match t with
      | .Operator .Assign => do
        let s := s.consume
        let (e, s) ← expression f 0 s
        .ok (some e, s)
      | _ => .ok ((none : Option Expression), s)
    let list := list ++ [Declarator.mk name value]
    let (t, s) ← peekT s
    match t with
    | .Comma => variable_declarators_items f list s.consume
    | _ => .ok (list, s)
termination_by structural f _ _ => f

/-- `Parser::variable_declarators` of parser.rs. -/
def variable_declarators : Nat → St → Except Err (List Declarator × St)
  | 0, _ => .error .OutOfFuel
  | f+1, s => variable_declarators_items f [] s
termination_by structural f _ => f

/-- `Parser::variable_declaration_statement` of parser.rs. -/
def variable_declaration_statement : Nat → VariableDeclarationKind → St → Except Err (Statement × St)
  | 0, _, _ => .error .OutOfFuel
  | f+1, kind, s => do
    let (st, s) ← variable_declaration f kind s
    let ((), s) ← expect_semicolon s
    .ok (st, s)
termination_by structural f _ _ => f

/-- `Parser::labeled_or_expression_statement` of parser.rs (lines 664 to 679):
a following `:` makes a labeled statement; otherwise the identifier seeds an
expression statement. -/
def labeled_or_expression_statement : Nat → String → St → Except Err (Statement × St)
  | 0, _, _ => .error .OutOfFuel
  | f+1, label, s => do
    let (t, s) ← peekT s
    match t with
    | .Colon => do
      let s := s.consume
      let (body, s) ← expect_statement f s
      .ok (.Labeled label body, s)
    | _ => do
      let (first, s) ← complex_expression f (.Identifier label) 0 s
      let (e, s) ← sequence_or f first s
      let ((), s) ← expect_semicolon s
      .ok (Statement.fromExpression e, s)
termination_by structural f _ _ => f

/-- `Parser::expression_statement` of parser.rs. -/
def expression_statement : Nat → Token → St → Except Err (Statement × St)
  | 0, _, _ => .error .OutOfFuel
  | f+1, token, s => do
    let (e, s) ← sequence_or_expression_from_token f token s
    let ((), s) ← expect_semicolon s
    .ok (Statement.fromExpression e, s)
termination_by structural f _ _ => f

/-- `Parser::return_statement` of parser.rs (lines 690 to 709): the value is
absent when the lookahead is `EndOfProgram` or `;`, or when `asi()` holds. -/
def return_statement : Nat → St → Except Err (Statement × St)
  | 0, _ => .error .OutOfFuel
  | f+1, s => do
    let (t, s) ← peekT s
    let (value, s) ←
      match t with
      | .EndOfProgram => .ok ((none : Option Expression), s)
      | .Semicolon => .ok ((none : Option Expression), s)
      | _ =>
        if s.asi then .ok ((none : Option Expression), s)
        else do
          let (e, s) ← sequence_or_expression f s
          .ok (some e, s)
    let ((), s) ← expect_semicolon s
    .ok (.Return value, s)
termination_by structural f _ => f

/-- `Parser::throw_statement` of parser.rs. -/
def throw_statement : Nat → St → Except Err (Statement × St)
  | 0, _ => .error .OutOfFuel
  | f+1, s => do
    let (value, s) ← sequence_or_expression f s
    let ((), s) ← expect_semicolon s
    .ok (.Throw value, s)
termination_by structural f _ => f

/-- `Parser::try_statement` of parser.rs (lines 722 to 739): a body statement,
then mandatory `catch ( identifier )` and the handler statement. -/
def try_statement : Nat → St → Except Err (Statement × St)
  | 0, _ => .error .OutOfFuel
  | f+1, s => do
    let (body, s) ← expect_statement f s
    let ((), s) ← expectTk .Catch s
    let ((), s) ← expectTk .ParenOpen s
    let (error, s) ← expect_identifier s
    let ((), s) ← expectTk .ParenClose s
    let (handler, s) ← expect_statement f s
    .ok (.Try body error handler, s)
termination_by structural f _ => f

/-- `Parser::break_statement` of parser.rs. -/
def break_statement : Nat → St → Except Err (Statement × St)
  | 0, _ => .error .OutOfFuel
  | _f+1, s => do
    let (t, s) ← peekT s
    let (label, s) ←
      match t with
      | .EndOfProgram => .ok ((none : Option String), s)
      | .Semicolon => .ok ((none : Option String), s)
      | _ =>
        if s.asi then .ok ((none : Option String), s)
        else do
          let (ident, s) ← expect_identifier s
          .ok (some ident, s)
    let ((), s) ← expect_semicolon s
    .ok (.Break label, s)

/-- `Parser::if_statement` of parser.rs. -/
def if_statement : Nat → St → Except Err (Statement × St)
  | 0, _ => .error .OutOfFuel
  | f+1, s => do
    let ((), s) ← expectTk .ParenOpen s
    let (test, s) ← expression f 0 s
    let ((), s) ← expectTk .ParenClose s
    let (consequent, s) ← expect_statement f s
    let (t, s) ← peekT s
    let (alternate, s) ←
      match t with
      | .Else => do
        let s := s.consume
        let (a, s) ← expect_statement f s
        .ok (some a, s)
      | _ => .ok ((none : Option Statement), s)
    .ok (.If test consequent alternate, s)
termination_by structural f _ => f

/-- `Parser::while_statement` of parser.rs. -/
def while_statement : Nat → St → Except Err (Statement × St)
  | 0, _ => .error .OutOfFuel
  | f+1, s => do
    let ((), s) ← expectTk .ParenOpen s
    let (test, s) ← expression f 0 s
    let ((), s) ← expectTk .ParenClose s
    let (body, s) ← expect_statement f s
    .ok (.While test body, s)
termination_by structural f _ => f

/-- `Parser::for_statement` of parser.rs (lines 805 to 899): the init segment.
A leading `;` leaves the init empty; a declaration with exactly one declarator
whose initializer is an `in` binary is rewritten into a `ForIn` head (the
declarator keeps only the left operand of the `in`); an expression init whose
top level is an `in` binary likewise; everything else falls through to
`for_statement_with_init`. -/
def for_statement : Nat → St → Except Err (Statement × St)
  | 0, _ => .error .OutOfFuel
  | f+1, s => do
    let ((), s) ← expectTk .ParenOpen s
    let (t, s) ← nextT s
    match t with
    | .Semicolon => for_statement_rest f none s
    | .Declaration kind => do
      let (declarators, s) ← variable_declarators f s
      match declarators with
      | [Declarator.mk name (some (.Binary _ .In left right))] =>
        for_in_statement_from_parts f
          (.VariableDeclaration kind [Declarator.mk name (some left)]) right s
      | declarators =>
        for_statement_with_init f (.VariableDeclaration kind declarators) s
    | t => do
      let (e, s) ← sequence_or_expression_from_token f t s
      match e with
      | .Binary _ .In left right =>
        for_in_statement_from_parts f (Statement.fromExpression left) right s
      | e => for_statement_with_init f (Statement.fromExpression e) s
termination_by structural f _ => f

/-- The `if init.is_some()` arm of `for_statement` (parser.rs lines 860 to 872):
after a non-empty init, `in` or the contextual keyword `of` select the
`ForIn` / `ForOf` productions, `;` continues into the classic head, and
anything else is an error. -/
def for_statement_with_init : Nat → Statement → St → Except Err (Statement × St)
  | 0, _, _ => .error .OutOfFuel
  | f+1, init, s => do
    let (t, s) ← nextT s
    match t with
    | .Operator .In => for_in_statement f init s
    | .Identifier ident =>
      if ident ≠ "of" then .error .UnexpectedToken
      else for_of_statement f init s
    | .Semicolon => for_statement_rest f (some init) s
    | _ => .error .UnexpectedToken
termination_by structural f _ _ => f

/-- The classic C-style tail of `for_statement` (parser.rs lines 874 to 898):
optional test terminated by `;`, optional update terminated by `)`, then the
body. -/
def for_statement_rest : Nat → Option Statement → St → Except Err (Statement × St)
  | 0, _, _ => .error .OutOfFuel
  | f+1, init, s => do
    let (t, s) ← nextT s
    let (test, s) ←
      match t with
      | .Semicolon => .ok ((none : Option Expression), s)
      | t => do
        let (e, s) ← sequence_or_expression_from_token f t s
        .ok (some e, s)
    let ((), s) ←
      if test.isSome then expectTk .Semicolon s else .ok ((), s)
    let (t, s) ← nextT s
    let (update, s) ←
      match t with
      | .ParenClose => .ok ((none : Option Expression), s)
      | t => do
        let (e, s) ← sequence_or_expression_from_token f t s
        .ok (some e, s)
    let ((), s) ←
      if update.isSome then expectTk .ParenClose s else .ok ((), s)
    let (body, s) ← expect_statement f s
    .ok (.For init test update body, s)
termination_by structural f _ _ => f

/-- `Parser::for_in_statement_from_parts` of parser.rs: the right operand is
already parsed, expect `)` and the body. -/
def for_in_statement_from_parts : Nat → Statement → Expression → St → Except Err (Statement × St)
  | 0, _, _, _ => .error .OutOfFuel
  | f+1, left, right, s => do
    let ((), s) ← expectTk .ParenClose s
    let (body, s) ← expect_statement f s
    .ok (.ForIn left right body, s)
termination_by structural f _ _ _ => f

/-- `Parser::for_in_statement` of parser.rs. -/
def for_in_statement : Nat → Statement → St → Except Err (Statement × St)
  | 0, _, _ => .error .OutOfFuel
  | f+1, left, s => do
    let (right, s) ← sequence_or_expression f s
    let ((), s) ← expectTk .ParenClose s
    let (body, s) ← expect_statement f s
    .ok (.ForIn left right body, s)
termination_by structural f _ _ => f

/-- `Parser::for_of_statement` of parser.rs. -/
def for_of_statement : Nat → Statement → St → Except Err (Statement × St)
  | 0, _, _ => .error .OutOfFuel
  | f+1, left, s => do
    let (right, s) ← sequence_or_expression f s
    let ((), s) ← expectTk .ParenClose s
    let (body, s) ← expect_statement f s
    .ok (.ForOf left right body, s)
termination_by structural f _ _ => f

/-- The head half of each `parameter_list` loop iteration (parser.rs lines 948
to 974): `)` ends the list, an identifier opens a parameter whose optional
default flips the `default_params` flag; once the flag is set a parameter
without a default is an `UnexpectedToken` error. -/
def parameter_list_items : Nat → Bool → List Parameter → St → Except Err (List Parameter × St)
  | 0, _, _, _ => .error .OutOfFuel
  | f+1, default_params, list, s => do
    let (t, s) ← nextT s
    match t with
    | .ParenClose => .ok (list, s)
    | .Identifier name => do
      let (t2, s2) ← peekT s
      match t2 with
      | .Operator .Assign => do
        let s := s2.consume
        let (e, s) ← expression f 0 s
        parameter_list_sep f true (list ++ [Parameter.mk name (some e)]) s
      | _ =>
        if default_params then .error .UnexpectedToken
        else parameter_list_sep f default_params (list ++ [Parameter.mk name none]) s2
    | _ => .error .UnexpectedToken
termination_by structural f _ _ _ => f

/-- The separator half of each `parameter_list` loop iteration (parser.rs lines
976 to 980): `)` ends the list, `,` continues it. -/
def parameter_list_sep : Nat → Bool → List Parameter → St → Except Err (List Parameter × St)
  | 0, _, _, _ => .error .OutOfFuel
  | f+1, default_params, list, s => do
    let (t, s) ← nextT s
    match t with
    | .ParenClose => .ok (list, s)
    | .Comma => parameter_list_items f default_params list s
    | _ => .error .UnexpectedToken
termination_by structural f _ _ _ => f

/-- `Parser::parameter_list` of parser.rs (lines 944 to 984). -/
def parameter_list : Nat → St → Except Err (List Parameter × St)
  | 0, _ => .error .OutOfFuel
  | f+1, s => parameter_list_items f false [] s
termination_by structural f _ => f

/-- `Parser::function_statement` of parser.rs: a mandatory name, then the
parameter list and the block body. -/
def function_statement : Nat → St → Except Err (Statement × St)
  | 0, _ => .error .OutOfFuel
  | f+1, s => do
    let (name, s) ← expect_identifier s
    let ((), s) ← expectTk .ParenOpen s
    let (params, s) ← parameter_list f s
    let (body, s) ← block_body f s
    .ok (.Function name params body, s)
termination_by structural f _ => f

/-- `Parser::class_member` of parser.rs (lines 999 to 1025): a `(` after the key
makes a method (a constructor when the key spells `constructor` and the member
is not static), an `=` a property; anything else is an error. -/
def class_member : Nat → ClassKey → Bool → St → Except Err (ClassMember × St)
  | 0, _, _, _ => .error .OutOfFuel
  | f+1, key, is_static, s => do
    let (t, s) ← nextT s
    match t with
    | .ParenOpen =>
      if !is_static && key.is_constructor then do
        let (params, s) ← parameter_list f s
        let (body, s) ← block_body f s
        .ok (.Constructor params body, s)
      else do
        let (params, s) ← parameter_list f s
        let (body, s) ← block_body f s
        .ok (.Method is_static key params body, s)
    | .Operator .Assign => do
      let (value, s) ← expression f 0 s
      .ok (.Property is_static key value, s)
    | _ => .error .UnexpectedToken
termination_by structural f _ _ _ => f

/-- The member loop of `class_statement` (parser.rs lines 1044 to 1086), with
the accumulated member list as an explicit argument: a leading `static` flips
the flag, `;` between members is skipped, `}` ends the body, and the key forms
mirror the source dispatch. -/
def class_body_items : Nat → List ClassMember → St → Except Err (List ClassMember × St)
  | 0, _, _ => .error .OutOfFuel
  | f+1, members, s => do
    let (t, s) ← nextT s
    let (token, is_static, s) ←
      match t with
      | .Static => do
        let (t2, s) ← nextT s
        .ok (t2, true, s)
      | t => .ok (t, false, s)
    match token with
    | .Semicolon => class_body_items f members s
    | .BraceClose => .ok (members, s)
    | .Literal (.Number num) => class_body_member f members (.Number num) is_static s
    | .Literal (.Binary num) => class_body_member f members (.Binary num) is_static s
    | .Identifier key => class_body_member f members (.Literal key) is_static s
    | .BracketOpen => do
      let (e, s) ← sequence_or_expression f s
      let ((), s) ← expectTk .BracketClose s
      class_body_member f members (.Computed e) is_static s
    | token =>
      match token.as_word with
      | some key => class_body_member f members (.Literal key) is_static s
      | none => .error .UnexpectedToken
termination_by structural f _ _ => f

/-- One member step of the `class_statement` loop: parse the member for the
resolved key and continue the loop. -/
def class_body_member : Nat → List ClassMember → ClassKey → Bool → St → Except Err (List ClassMember × St)
  | 0, _, _, _, _ => .error .OutOfFuel
  | f+1, members, key, is_static, s => do
    let (m, s) ← class_member f key is_static s
    class_body_items f (members ++ [m]) s
termination_by structural f _ _ _ _ => f

/-- `Parser::class_statement` of parser.rs (lines 1028 to 1093): a mandatory
name, an optional `extends` clause, then the member loop. -/
def class_statement : Nat → St → Except Err (Statement × St)
  | 0, _ => .error .OutOfFuel
  | f+1, s => do
    let (name, s) ← expect_identifier s
    let (t, s) ← nextT s
    let (super_class, s) ←
      match t with
      | .Extends => do
        let (n, s) ← expect_identifier s
        let ((), s) ← expectTk .BraceOpen s
        .ok (some n, s)
      | .BraceOpen => .ok ((none : Option String), s)
      | _ => .error .UnexpectedToken
    let (members, s) ← class_body_items f [] s
    .ok (.Class name super_class members, s)
termination_by structural f _ => f

/-- `Parser::expect_statement` of parser.rs. -/
def expect_statement : Nat → St → Except Err (Statement × St)
  | 0, _ => .error .OutOfFuel
  | f+1, s => do
    let (t, s) ← nextT s
    statement f t s
termination_by structural f _ => f

/-- `Parser::statement` of parser.rs (lines 1108 to 1125): the statement
dispatch on the consumed token. -/
def statement : Nat → Token → St → Except Err (Statement × St)
  | 0, _, _ => .error .OutOfFuel
  | f+1, token, s =>
    match token with
    | .Semicolon => .ok (.Empty, s)
    | .BraceOpen => block_statement f s
    | .Declaration kind => variable_declaration_statement f kind s
    | .Return => return_statement f s
    | .Break => break_statement f s
    | .Function => function_statement f s
    | .Class => class_statement f s
    | .If => if_statement f s
    | .While => while_statement f s
    | .For => for_statement f s
    | .Identifier label => labeled_or_expression_statement f label s
    | .Throw => throw_statement f s
    | .Try => try_statement f s
    | token => expression_statement f token s
termination_by structural f _ _ => f

/-- The top-level loop of `Parser::parse` (parser.rs lines 1128 to 1139), with
the accumulated body as an explicit argument. -/
def parse_body_items : Nat → List Statement → St → Except Err (List Statement × St)
  | 0, _, _ => .error .OutOfFuel
  | f+1, body, s => do
    let (t, s) ← nextT s
    match t with
    | .EndOfProgram => .ok (body, s)
    | t => do
      let (st, s) ← statement f t s
      parse_body_items f (body ++ [st]) s
termination_by structural f _ _ => f

/-- `Parser::parse` of parser.rs: the top-level statement list. -/
def parse_body : Nat → St → Except Err (List Statement × St)
  | 0, _ => .error .OutOfFuel
  | f+1, s => parse_body_items f [] s

end

/-- The `Program` produced by the free function `parse` of parser.rs (lines 1142
to 1165): the source text and the top-level statement body. -/
structure Program where
  source : String
  body : List Statement

/-- The `ParseError` of the free function `parse` of parser.rs, with the byte
positions of `UnexpectedToken` dropped (they come from the tokenizer, which is
not in the snapshot). `OutOfFuel` is the fuel artifact of the embedding. -/
inductive ParseError where
  | UnexpectedEndOfProgram
  | UnexpectedToken (source : String)
  | OutOfFuel
  deriving DecidableEq, Repr

/-- Modelled from the spec (section 4.1): is this character an identifier start
character (ASCII letters, underscore, dollar)? -/
def is_id_start (c : Char) : Bool :=
  c.isAlpha || c = '_' || c = '$'

/-- Modelled from the spec (section 4.1): is this character an identifier
continuation character? -/
def is_id_char (c : Char) : Bool :=
  is_id_start c || c.isDigit

/-- Modelled from the spec (sections 3 and 4.1): the keyword table mapping a
scanned word to its token. The word `of` is a contextual keyword lexed as an
identifier; `in`, `instanceof`, `typeof`, `new`, `void` and `delete` lex as
operators. Every other word is an identifier. -/
def keyword_token : String → Token
  | "var" => .Declaration .Var
  | "let" => .Declaration .Let
  | "const" => .Declaration .Const
  | "this" => .This
  | "function" => .Function
  | "return" => .Return
  | "break" => .Break
  | "class" => .Class
  | "extends" => .Extends
  | "static" => .Static
  | "if" => .If
  | "else" => .Else
  | "while" => .While
  | "do" => .Do
  | "for" => .For
  | "throw" => .Throw
  | "try" => .Try
  | "catch" => .Catch
  | "true" => .Literal .True
  | "false" => .Literal .False
  | "null" => .Literal .Null
  | "undefined" => .Literal .Undefined
  | "in" => .Operator .In
  | "instanceof" => .Operator .Instanceof
  | "typeof" => .Operator .Typeof
  | "new" => .Operator .New
  | "void" => .Operator .Void
  | "delete" => .Operator .Delete
  | s => .Identifier s

/-- Modelled from the spec (section 4.1): scan one punctuator or operator token
starting with `c`; returns the token and the remaining characters. Covers the
structural tokens and the operator spellings needed here; characters outside
the modelled subset (string quotes, backticks, unknown symbols) are an
`UnexpectedToken` error. -/
def symbol_token (c : Char) (cs : List Char) : Except Err (Token × List Char) :=
  if c = '(' then .ok (.ParenOpen, cs)
  else if c = ')' then .ok (.ParenClose, cs)
  else if c = '{' then .ok (.BraceOpen, cs)
  else if c = '}' then .ok (.BraceClose, cs)
  else if c = '[' then .ok (.BracketOpen, cs)
  else if c = ']' then .ok (.BracketClose, cs)
  else if c = ';' then .ok (.Semicolon, cs)
  else if c = ',' then .ok (.Comma, cs)
  else if c = ':' then .ok (.Colon, cs)
  else if c = '?' then .ok (.Operator .Conditional, cs)
  else if c = '.' then .ok (.Operator .Accessor, cs)
  else if c = '~' then .ok (.Operator .BitwiseNot, cs)
  else if c = '^' then .ok (.Operator .BitwiseXor, cs)
  else if c = '%' then .ok (.Operator .Remainder, cs)
  else if c = '=' then
    match cs with
    | '=' :: '=' :: rest => .ok (.Operator .StrictEquality, rest)
    | '=' :: rest => .ok (.Operator .Equality, rest)
    | '>' :: rest => .ok (.Operator .FatArrow, rest)
    | rest => .ok (.Operator .Assign, rest)
  else if c = '!' then
    match cs with
    | '=' :: '=' :: rest => .ok (.Operator .StrictInequality, rest)
    | '=' :: rest => .ok (.Operator .Inequality, rest)
    | rest => .ok (.Operator .LogicalNot, rest)
  else if c = '<' then
    match cs with
    | '<' :: rest => .ok (.Operator .BitShiftLeft, rest)
    | '=' :: rest => .ok (.Operator .LesserEquals, rest)
    | rest => .ok (.Operator .Lesser, rest)
  else if c = '>' then
    match cs with
    | '>' :: '>' :: rest => .ok (.Operator .UBitShiftRight, rest)
    | '>' :: rest => .ok (.Operator .BitShiftRight, rest)
    | '=' :: rest => .ok (.Operator .GreaterEquals, rest)
    | rest => .ok (.Operator .Greater, rest)
  else if c = '+' then
    match cs with
    | '+' :: rest => .ok (.Operator .Increment, rest)
    | '=' :: rest => .ok (.Operator .AddAssign, rest)
    | rest => .ok (.Operator .Addition, rest)
  else if c = '-' then
    match cs with
    | '-' :: rest => .ok (.Operator .Decrement, rest)
    | '=' :: rest => .ok (.Operator .SubtractAssign, rest)
    | rest => .ok (.Operator .Subtraction, rest)
  else if c = '*' then
    match cs with
    | '*' :: rest => .ok (.Operator .Exponent, rest)
    | '=' :: rest => .ok (.Operator .MultiplyAssign, rest)
    | rest => .ok (.Operator .Multiplication, rest)
  else if c = '&' then
    match cs with
    | '&' :: rest => .ok (.Operator .LogicalAnd, rest)
    | rest => .ok (.Operator .BitwiseAnd, rest)
  else if c = '|' then
    match cs with
    | '|' :: rest => .ok (.Operator .LogicalOr, rest)
    | rest => .ok (.Operator .BitwiseOr, rest)
  else if c = '/' then
    match cs with
    | '=' :: rest => .ok (.Operator .DivideAssign, rest)
    | rest => .ok (.Operator .Division, rest)
  else .error .UnexpectedToken

/-- Modelled from the spec (section 4.1): the tokenizer loop. `nl` records
whether a line terminator has been seen since the last token; each produced
item carries that flag, and the final item is `EndOfProgram`. Numeric literals
here cover plain decimal digit runs. -/
def tokenize_chars : Nat → List Char → Bool → List Item → Except Err (List Item)
  | 0, _, _, _ => .error .OutOfFuel
  | _, [], nl, acc => .ok (acc ++ [Item.mk .EndOfProgram nl])
  | f+1, c :: cs, nl, acc =>
    if c = ' ' || c = '\t' then tokenize_chars f cs nl acc
    else if c = '\n' || c = '\r' then tokenize_chars f cs true acc
    else if is_id_start c then
      let word := String.mk (c :: cs.takeWhile is_id_char)
      tokenize_chars f (cs.dropWhile is_id_char) false (acc ++ [Item.mk (keyword_token word) nl])
    else if c.isDigit then
      let num := String.mk (c :: cs.takeWhile Char.isDigit)
      tokenize_chars f (cs.dropWhile Char.isDigit) false
        (acc ++ [Item.mk (.Literal (.Number num)) nl])
    else
      match symbol_token c cs with
      | .ok (t, rest) => tokenize_chars f rest false (acc ++ [Item.mk t nl])
      | .error e => .error e

/-- Modelled from the spec (section 4.1): tokenize a source string. -/
def tokenize (source : String) : Except Err (List Item) :=
  tokenize_chars (source.length + 1) source.toList false []

/-- The initial parser state over a token stream: no stored lookahead, no line
terminator seen. -/
def St.init (items : List Item) : St :=
  { stream := items, tok := none, nl := false }

/-- The free function `parse` of parser.rs (lines 1142 to 1165): tokenize (the
tokenizer is modelled from the spec), run the parser, and package the result
as a `Program` carrying the source text, mapping parser errors to
`ParseError`. -/
def parse (fuel : Nat) (source : String) : Except ParseError Program :=
  match tokenize source with
  | .error .UnexpectedEndOfProgram => .error .UnexpectedEndOfProgram
  | .error .OutOfFuel => .error .OutOfFuel
  | .error .UnexpectedToken => .error (.UnexpectedToken source)
  | .ok items =>
    match parse_body fuel (St.init items) with
    | .ok (body, _) => .ok (Program.mk source body)
    | .error .UnexpectedEndOfProgram => .error .UnexpectedEndOfProgram
    | .error .UnexpectedToken => .error (.UnexpectedToken source)
    | .error .OutOfFuel => .error .OutOfFuel

/-! ### The arena-based parser

The statement layer below is translated from `src/core/src/parser/statement.rs`,
the parsing macros from `src/core/src/parser/macros.rs` and the error-recovery
layer from `src/core/src/parser/error.rs`. The arena parser's lexer, its
expression layer, its `parse` driver and its AST definitions are not in the
snapshot; they are modelled from the spec (sections 4.1, 4.2, 4.5, 9 — the spec
names the two parallel parser implementations and gives them one grammar), with
the expression layer embedded by the Vec-based expression functions above.
Positions (`Loc`, all written as `(0, 0)` in statement.rs) and arena pointers
(`Ptr`, `List`) are erased. -/

/-- A declarator of the arena parser: the name is a pattern expression
(statement.rs `variable_declarator` accepts object and array patterns). -/
inductive ADeclarator where
  | mk (name : Expression) (value : Option Expression)

/-- A parameter key of the arena parser (`ParameterKey::Identifier` in
macros.rs). -/
inductive ParameterKey where
  | Identifier (name : String)
  deriving DecidableEq, Repr

/-- A parameter of the arena parser: a key with an optional default. -/
inductive AParameter where
  | mk (key : ParameterKey) (value : Option Expression)

mutual

/-- The arena parser's `Statement` family, as produced by statement.rs.
`Break` labels and `Try` error bindings are identifier expressions there, and
`Try` bodies are block bodies (statement lists). The `Class` payload field is
named `cls` (`class` is reserved in Lean). -/
inductive AStatement where
  | Empty
  | Labeled (label : String) (body : AStatement)
  | Block (body : List AStatement)
  | Expression (expression : HB.Expression)
  | Declaration (kind : VariableDeclarationKind) (declarators : List ADeclarator)
  | Return (value : Option Expression)
  | Break (label : Option Expression)
  | Throw (value : Expression)
  | Try (body : List AStatement) (error : Expression) (handler : List AStatement)
  | If (test : Expression) (consequent : AStatement) (alternate : Option AStatement)
  | While (test : Expression) (body : AStatement)
  | Do (body : AStatement) (test : Expression)
  | For (init : Option AStatement) (test update : Option Expression) (body : AStatement)
  | ForIn (left : AStatement) (right : Expression) (body : AStatement)
  | ForOf (left : AStatement) (right : Expression) (body : AStatement)
  | Function (function : AFunction)
  | Class (cls : AClass)
  | Error

/-- The arena parser's named function (statement form: the name is
mandatory). -/
inductive AFunction where
  | mk (name : String) (params : List AParameter) (body : List AStatement)

/-- The arena parser's named class (modelled from the spec, section 4.6). -/
inductive AClass where
  | mk (name : String) (superClass : Option String) (body : List AClassMember)

/-- The arena parser's class members (modelled from the spec, section 4.6;
`ClassMember::Error` is the error substitute of error.rs). -/
inductive AClassMember where
  | Constructor (params : List AParameter) (body : List AStatement)
  | Method (isStatic : Bool) (key : ClassKey) (params : List AParameter) (body : List AStatement)
  | Property (isStatic : Bool) (key : ClassKey) (value : Expression)
  | Error

end

/-- The state of the arena parser: the remaining token stream (the head is the
lexer's materialized current token) and the collected non-fatal error records
(the `errors` vector of the arena `Parser`). -/
structure ASt where
  stream : List Item
  errors : List Err
  deriving DecidableEq, Repr

/-- The arena lexer's current token (`lexer.token`): the head of the stream, or
`EndOfProgram` once the stream is exhausted. -/
def ASt.current (s : ASt) : Token :=
  match s.stream with
  | [] => .EndOfProgram
  | i :: _ => i.tok

/-- Whether a line terminator preceded the arena lexer's current token. -/
def ASt.currentNl (s : ASt) : Bool :=
  match s.stream with
  | [] => false
  | i :: _ => i.nl

/-- The arena lexer's `consume`: advance past the current token. -/
def ASt.consume (s : ASt) : ASt :=
  { s with stream := s.stream.tail }

/-- Append one error record to the arena parser's error list. -/
def ASt.pushError (s : ASt) (e : Err) : ASt :=
  { s with errors := s.errors ++ [e] }

/-- The computation type of the arena parser's productions: state in, an
`Except`-style outcome plus the (always propagated) state out. An `.error`
outcome models the `return parser.error()` early exit of the parsing macros; it
is caught at the boundary of the enclosing production by `a_handled`. -/
def ME (α : Type) : Type :=
  ASt → Except Err α × ASt

instance : Monad ME where
  pure a := fun s => (.ok a, s)
  bind x g := fun s =>
    match x s with
    | (.ok a, s') => g a s'
    | (.error e, s') => (.error e, s')

/-- The `ToError` substitutes of error.rs: the value a production returns after
recording an error. -/
class AToError (α : Type) where
  toError : α

instance : AToError AStatement :=
  ⟨AStatement.Error⟩

instance : AToError Expression :=
  ⟨Expression.Error⟩

instance : AToError ADeclarator :=
  ⟨ADeclarator.mk Expression.Error none⟩

instance : AToError ObjectMember :=
  ⟨ObjectMember.Shorthand ""⟩

instance : AToError AClassMember :=
  ⟨AClassMember.Error⟩

instance : AToError AFunction :=
  ⟨AFunction.mk "" [] []⟩

instance : AToError AClass :=
  ⟨AClass.mk "" none []⟩

instance {α : Type} : AToError (List α) :=
  ⟨[]⟩

instance : AToError String :=
  ⟨""⟩

instance {α : Type} : AToError (Option α) :=
  ⟨none⟩

/-- The `Handle::handle_error` of error.rs (lines 107 to 113): push the error
record onto the parser's error list and return the expected family's error
substitute. -/
def handle_error {α : Type} [AToError α] (s : ASt) (err : Err) : α × ASt :=
  (AToError.toError, s.pushError err)

/-- The boundary of an arena production: a `return parser.error()` early exit
inside the body is resolved by `handle_error` (error.rs), so the production
itself is total. The fuel artifact `OutOfFuel` is not an error of the real
parser and is propagated unhandled. -/
def a_handled {α : Type} [AToError α] (m : ME α) : ME α := fun s =>
  match m s with
  | (.ok a, s') => (.ok a, s')
  | (.error .OutOfFuel, s') => (.error .OutOfFuel, s')
  | (.error e, s') =>
    let (a, s'') := handle_error s' e
    (.ok a, s'')

/-- The arena lexer's current token, as a computation. -/
def a_current : ME Token := fun s =>
  (.ok s.current, s)

/-- The arena lexer's `consume`, as a computation. -/
def a_consume : ME Unit := fun s =>
  (.ok (), s.consume)

/-- The arena parser's `next()` (modelled: return the current token and advance
past it). -/
def a_next : ME Token := fun s =>
  (.ok s.current, s.consume)

/-- The `return parser.error()` early exit seen from inside a production body:
an `UnexpectedToken` outcome, resolved by `a_handled` at the production's
boundary. -/
def a_throw {α : Type} : ME α := fun s =>
  (.error .UnexpectedToken, s)

/-- The `expect!` macro of macros.rs (lines 17 to 24): consume the current token
when it matches, otherwise `return parser.error()`. -/
def a_expect (t : Token) : ME Unit := do
  let c ← a_current
  if c = t then a_consume else a_throw

/-- The `expect_identifier!` macro of macros.rs (lines 29 to 40). -/
def a_expect_identifier : ME String := do
  let c ← a_current
  match c with
  | .Identifier ident => do
    a_consume
    pure ident
  | _ => a_throw

/-- The outcome of the arena parser's `asi()` query (spec section 4.1). -/
inductive Asi where
  | ExplicitSemicolon
  | ImplicitSemicolon
  | NoSemicolon
  deriving DecidableEq, Repr

/-- Modelled from the spec (section 4.1): the arena parser's `asi()` query.
`ExplicitSemicolon` when the current token is `;`; `ImplicitSemicolon` when it
is `}` or `EndOfProgram` or a line terminator preceded it; `NoSemicolon`
otherwise. -/
def a_asi (s : ASt) : Asi :=
  if s.current = .Semicolon then .ExplicitSemicolon
  else if s.current = .BraceClose || s.current = .EndOfProgram || s.currentNl then
    .ImplicitSemicolon
  else .NoSemicolon

/-- The `asi()` query as a computation. -/
def a_asi_query : ME Asi := fun s =>
  (.ok (a_asi s), s)

/-- The `expect_semicolon!` macro of macros.rs (lines 45 to 53): dispatch on the
`asi()` query; an explicit semicolon is consumed, an implicit one accepted, and
`NoSemicolon` is `return parser.error()`. -/
def a_expect_semicolon : ME Unit := do
  let q ← a_asi_query
  match q with
  | .ExplicitSemicolon => a_consume
  | .ImplicitSemicolon => pure ()
  | .NoSemicolon => a_throw

/-- The `parameter_key!` macro of macros.rs (lines 56 to 71): `)` ends the list
(`none` models its `break`), an identifier is a key, anything else is
`return parser.error()`. -/
def a_parameter_key : ME (Option ParameterKey) := do
  let c ← a_current
  match c with
  | .ParenClose => do
    a_consume
    pure none
  | .Identifier ident => do
    a_consume
    pure (some (ParameterKey.Identifier ident))
  | _ => a_throw

/-- Modelled from the spec (section 9): the arena parser's expression layer is
not in the snapshot; the spec gives both implementations one grammar, so an
arena expression computation is embedded by running the corresponding Vec-based
function on the same stream (a fetched-but-unconsumed lookahead is put back as
a stream item; a failed run leaves the arena stream unchanged and surfaces the
error to the enclosing production's boundary). -/
def a_lift {α : Type} (g : St → Except Err (α × St)) : ME α := fun s =>
  match g { stream := s.stream, tok := none, nl := false } with
  | .ok (a, st) =>
    (.ok a,
      { s with stream :=
          match st.tok with
          | some t => Item.mk t st.nl :: st.stream
          | none => st.stream })
  | .error e => (.error e, s)

mutual

/-- `Parser::statement` of statement.rs (lines 10 to 28): the arena statement
dispatch on the consumed token. -/
def a_statement : Nat → Token → ME AStatement
  | 0, _ => fun s => (.error .OutOfFuel, s)
  | f+1, token =>
    match token with
    | .Semicolon => pure .Empty
    | .Identifier label => a_labeled_or_expression_statement f label
    | .BraceOpen => a_block_statement f
    | .Declaration kind => a_variable_declaration_statement f kind
    | .Return => a_return_statement f
    | .Break => a_break_statement f
    | .Function => a_function_statement f
    | .Class => a_class_statement f
    | .If => a_if_statement f
    | .While => a_while_statement f
    | .Do => a_do_statement f
    | .For => a_for_statement f
    | .Throw => a_throw_statement f
    | .Try => a_try_statement f
    | token => a_expression_statement f token
termination_by structural f _ => f

/-- `Parser::expect_statement` of statement.rs. -/
def a_expect_statement : Nat → ME AStatement
  | 0 => fun s => (.error .OutOfFuel, s)
  | f+1 => do
    let t ← a_next
    a_statement f t
termination_by structural f => f

/-- `Parser::block_statement` of statement.rs. -/
def a_block_statement : Nat → ME AStatement
  | 0 => fun s => (.error .OutOfFuel, s)
  | f+1 => do
    let body ← a_block_body_tail f
    pure (.Block body)
termination_by structural f => f

/-- Modelled from the spec (section 4.3): the arena `block_body_tail` is not in
the snapshot; statements are collected until the closing `}` (reaching the end
of input is an error resolved at this production's boundary). -/
def a_block_body_tail : Nat → ME (List AStatement)
  | 0 => fun s => (.error .OutOfFuel, s)
  | f+1 => a_handled (a_block_body_items f [])
termination_by structural f => f

/-- The statement loop of the modelled arena `block_body_tail`. -/
def a_block_body_items : Nat → List AStatement → ME (List AStatement)
  | 0, _ => fun s => (.error .OutOfFuel, s)
  | f+1, acc => do
    let c ← a_current
    match c with
    | .BraceClose => do
      a_consume
      pure acc
    | .EndOfProgram => fun s => (.error .UnexpectedEndOfProgram, s)
    | _ => do
      let t ← a_next
      let st ← a_statement f t
      a_block_body_items f (acc ++ [st])
termination_by structural f _ => f

/-- Modelled from the spec (section 4.3): the arena `block_body` is not in the
snapshot; expect `{`, then the body tail. -/
def a_block_body : Nat → ME (List AStatement)
  | 0 => fun s => (.error .OutOfFuel, s)
  | f+1 => a_handled (do
      a_expect .BraceOpen
      a_block_body_tail f)
termination_by structural f => f

/-- `Parser::expression_statement` of statement.rs (lines 44 to 53). -/
def a_expression_statement : Nat → Token → ME AStatement
  | 0, _ => fun s => (.error .OutOfFuel, s)
  | f+1, token => a_handled (do
      let e ← a_lift (sequence_or_expression_from_token f token)
      a_expect_semicolon
      pure (.Expression e))

/-- `Parser::labeled_or_expression_statement` of statement.rs (lines 56
to 75). -/
def a_labeled_or_expression_statement : Nat → String → ME AStatement
  | 0, _ => fun s => (.error .OutOfFuel, s)
  | f+1, label => a_handled (do
      let c ← a_current
      match c with
      | .Colon => do
        a_consume
        let body ← a_expect_statement f
        pure (.Labeled label body)
      | _ => do
        let e ← a_lift (fun st => do
          let (first, st) ← complex_expression f (.Identifier label) 0 st
          sequence_or f first st)
        a_expect_semicolon
        pure (.Expression e))
termination_by structural f _ => f

/-- `Parser::function_statement` of statement.rs (lines 78 to 84). -/
def a_function_statement : Nat → ME AStatement
  | 0 => fun s => (.error .OutOfFuel, s)
  | f+1 => a_handled (do
      let name ← a_expect_identifier
      let fn ← a_function f name
      pure (.Function fn))
termination_by structural f => f

/-- Modelled from the spec (section 4.6): the arena `function(name)` production
is not in the snapshot; after the name, the parameter list in parentheses and
the block body. -/
def a_function : Nat → String → ME AFunction
  | 0, _ => fun s => (.error .OutOfFuel, s)
  | f+1, name => a_handled (do
      a_expect .ParenOpen
      let params ← a_parameter_list f
      let body ← a_block_body f
      pure (AFunction.mk name params body))
termination_by structural f _ => f

/-- Modelled from the spec (section 4.6): the arena `parameter_list` is not in
the snapshot; each iteration reads a key with the `parameter_key!` macro of
macros.rs, then an optional `= expression(0)` default, with the
defaults-must-follow rule of the spec. -/
def a_parameter_list : Nat → ME (List AParameter)
  | 0 => fun s => (.error .OutOfFuel, s)
  | f+1 => a_parameter_list_items f false []

/-- The key half of each modelled arena `parameter_list` iteration. -/
def a_parameter_list_items : Nat → Bool → List AParameter → ME (List AParameter)
  | 0, _, _ => fun s => (.error .OutOfFuel, s)
  | f+1, default_params, list => do
    let pk ← a_parameter_key
    match pk with
    | none => pure list
    | some key => do
      let c ← a_current
      match c with
      | .Operator .Assign => do
        a_consume
        let e ← a_lift (expression f 0)
        a_parameter_list_sep f true (list ++ [AParameter.mk key (some e)])
      | _ =>
        if default_params then a_throw
        else a_parameter_list_sep f default_params (list ++ [AParameter.mk key none])
termination_by structural f _ _ => f

/-- The separator half of each modelled arena `parameter_list` iteration. -/
def a_parameter_list_sep : Nat → Bool → List AParameter → ME (List AParameter)
  | 0, _, _ => fun s => (.error .OutOfFuel, s)
  | f+1, default_params, list => do
    let t ← a_next
    match t with
    | .ParenClose => pure list
    | .Comma => a_parameter_list_items f default_params list
    | _ => a_throw
termination_by structural f _ _ => f

/-- `Parser::class_statement` of statement.rs (lines 87 to 93). -/
def a_class_statement : Nat → ME AStatement
  | 0 => fun s => (.error .OutOfFuel, s)
  | f+1 => a_handled (do
      let name ← a_expect_identifier
      let c ← a_class f name
      pure (.Class c))
termination_by structural f => f

/-- Modelled from the spec (section 4.6): the arena `class(name)` production is
not in the snapshot; an optional `extends` clause, then the member loop. -/
def a_class : Nat → String → ME AClass
  | 0, _ => fun s => (.error .OutOfFuel, s)
  | f+1, name => a_handled (do
      let t ← a_next
      let super_class ←
        match t with
        | .Extends => do
          let n ← a_expect_identifier
          a_expect .BraceOpen
          pure (some n)
        | .BraceOpen => pure (none : Option String)
        | _ => a_throw
      let members ← a_class_body_items f []
      pure (AClass.mk name super_class members))
termination_by structural f _ => f

/-- The member loop of the modelled arena class body (mirroring the Vec-based
`class_statement` loop, which the spec gives as the one class grammar). -/
def a_class_body_items : Nat → List AClassMember → ME (List AClassMember)
  | 0, _ => fun s => (.error .OutOfFuel, s)
  | f+1, members => do
    let t ← a_next
    let (token, is_static) ←
      match t with
      | .Static => do
        let t2 ← a_next
        pure (t2, true)
      | t => pure (t, false)
    match token with
    | .Semicolon => a_class_body_items f members
    | .BraceClose => pure members
    | .EndOfProgram => fun s => (.error .UnexpectedEndOfProgram, s)
    | .Literal (.Number num) => a_class_body_member f members (.Number num) is_static
    | .Literal (.Binary num) => a_class_body_member f members (.Binary num) is_static
    | .Identifier key => a_class_body_member f members (.Literal key) is_static
    | .BracketOpen => do
      let e ← a_lift (sequence_or_expression f)
      a_expect .BracketClose
      a_class_body_member f members (.Computed e) is_static
    | token =>
      match token.as_word with
      | some key => a_class_body_member f members (.Literal key) is_static
      | none => a_throw
termination_by structural f _ => f

/-- One member step of the modelled arena class body loop. -/
def a_class_body_member : Nat → List AClassMember → ClassKey → Bool → ME (List AClassMember)
  | 0, _, _, _ => fun s => (.error .OutOfFuel, s)
  | f+1, members, key, is_static => do
    let m ← a_class_member f key is_static
    a_class_body_items f (members ++ [m])
termination_by structural f _ _ _ => f

/-- Modelled from the spec (section 4.6): one arena class member (a `(` after
the key makes a method or the constructor, an `=` a property). -/
def a_class_member : Nat → ClassKey → Bool → ME AClassMember
  | 0, _, _ => fun s => (.error .OutOfFuel, s)
  | f+1, key, is_static => a_handled (do
      let t ← a_next
      match t with
      | .ParenOpen =>
        if !is_static && key.is_constructor then do
          a_parameter_list_cont f fun params => do
            let body ← a_block_body f
            pure (.Constructor params body)
        else do
          a_parameter_list_cont f fun params => do
            let body ← a_block_body f
            pure (.Method is_static key params body)
      | .Operator .Assign => do
        let value ← a_lift (expression f 0)
        pure (.Property is_static key value)
      | _ => a_throw)
termination_by structural f _ _ => f

/-- Helper binding the parameter list of a class member (the `(` has already
been consumed by the member dispatch). -/
def a_parameter_list_cont : Nat → (List AParameter → ME AClassMember) → ME AClassMember
  | 0, _ => fun s => (.error .OutOfFuel, s)
  | f+1, k => do
    let params ← a_parameter_list_items f false []
    k params

/-- `Parser::return_statement` of statement.rs (lines 96 to 115): dispatch on
the `asi()` query; only `NoSemicolon` parses a value. -/
def a_return_statement : Nat → ME AStatement
  | 0 => fun s => (.error .OutOfFuel, s)
  | f+1 => a_handled (do
      let q ← a_asi_query
      match q with
      | .NoSemicolon => do
        let e ← a_lift (sequence_or_expression f)
        a_expect_semicolon
        pure (.Return (some e))
      | .ImplicitSemicolon => pure (.Return none)
      | .ExplicitSemicolon => do
        a_consume
        pure (.Return none))

/-- `Parser::variable_declaration_statement` of statement.rs (lines 118
to 129). -/
def a_variable_declaration_statement : Nat → VariableDeclarationKind → ME AStatement
  | 0, _ => fun s => (.error .OutOfFuel, s)
  | f+1, kind => a_handled (do
      let declarators ← a_variable_declarators f
      a_expect_semicolon
      pure (.Declaration kind declarators))

/-- `Parser::variable_declarator` of statement.rs (lines 132 to 152): the name
is an identifier or an object/array pattern, then an optional `=`
initializer. -/
def a_variable_declarator : Nat → ME ADeclarator
  | 0 => fun s => (.error .OutOfFuel, s)
  | f+1 => a_handled (do
      let t ← a_next
      let name ←
        match t with
        | .BraceOpen => a_lift (object_expression f)
        | .BracketOpen => a_lift (array_expression f)
        | .Identifier name => pure (Expression.Identifier name)
        | _ => a_throw
      let c ← a_current
      let value ←
        match c with
        | .Operator .Assign => do
          a_consume
          let e ← a_lift (expression f 0)
          pure (some e)
        | _ => pure (none : Option Expression)
      pure (ADeclarator.mk name value))

/-- `Parser::variable_declarators` of statement.rs (lines 155 to 171): the
first declarator, then a comma-driven loop. -/
def a_variable_declarators : Nat → ME (List ADeclarator)
  | 0 => fun s => (.error .OutOfFuel, s)
  | f+1 => do
    let d ← a_variable_declarator f
    a_variable_declarators_items f [d]

/-- The comma loop of `variable_declarators` of statement.rs. -/
def a_variable_declarators_items : Nat → List ADeclarator → ME (List ADeclarator)
  | 0, _ => fun s => (.error .OutOfFuel, s)
  | f+1, acc => do
    let c ← a_current
    match c with
    | .Comma => do
      a_consume
      let d ← a_variable_declarator f
      a_variable_declarators_items f (acc ++ [d])
    | _ => pure acc
termination_by structural f _ => f

/-- `Parser::break_statement` of statement.rs (lines 174 to 191). -/
def a_break_statement : Nat → ME AStatement
  | 0 => fun s => (.error .OutOfFuel, s)
  | _f+1 => a_handled (do
      let q ← a_asi_query
      match q with
      | .ExplicitSemicolon => do
        a_consume
        pure (.Break none)
      | .ImplicitSemicolon => pure (.Break none)
      | .NoSemicolon => do
        let label ← a_expect_identifier
        a_expect_semicolon
        pure (.Break (some (Expression.Identifier label))))

/-- `Parser::throw_statement` of statement.rs (lines 194 to 200). -/
def a_throw_statement : Nat → ME AStatement
  | 0 => fun s => (.error .OutOfFuel, s)
  | f+1 => a_handled (do
      let value ← a_lift (sequence_or_expression f)
      a_expect_semicolon
      pure (.Throw value))

/-- `Parser::try_statement` of statement.rs (lines 203 to 220): a block body,
mandatory `catch ( identifier )`, the handler block body, and the statement
semicolon. -/
def a_try_statement : Nat → ME AStatement
  | 0 => fun s => (.error .OutOfFuel, s)
  | f+1 => a_handled (do
      let body ← a_block_body f
      a_expect .Catch
      a_expect .ParenOpen
      let err ← a_expect_identifier
      a_expect .ParenClose
      let handler ← a_block_body f
      a_expect_semicolon
      pure (.Try body (Expression.Identifier err) handler))
termination_by structural f => f

/-- `Parser::if_statement` of statement.rs (lines 223 to 244). -/
def a_if_statement : Nat → ME AStatement
  | 0 => fun s => (.error .OutOfFuel, s)
  | f+1 => a_handled (do
      a_expect .ParenOpen
      let test ← a_lift (expression f 0)
      a_expect .ParenClose
      let consequent ← a_expect_statement f
      let c ← a_current
      let alternate ←
        match c with
        | .Else => do
          a_consume
          let a ← a_expect_statement f
          pure (some a)
        | _ => pure (none : Option AStatement)
      pure (.If test consequent alternate))
termination_by structural f => f

/-- `Parser::while_statement` of statement.rs (lines 247 to 259). -/
def a_while_statement : Nat → ME AStatement
  | 0 => fun s => (.error .OutOfFuel, s)
  | f+1 => a_handled (do
      a_expect .ParenOpen
      let test ← a_lift (expression f 0)
      a_expect .ParenClose
      let body ← a_expect_statement f
      pure (.While test body))
termination_by structural f => f

/-- `Parser::do_statement` of statement.rs (lines 262 to 272). -/
def a_do_statement : Nat → ME AStatement
  | 0 => fun s => (.error .OutOfFuel, s)
  | f+1 => a_handled (do
      let body ← a_expect_statement f
      a_expect .While
      let test ← a_lift (expression f 0)
      pure (.Do body test))
termination_by structural f => f

/-- `Parser::for_statement` of statement.rs (lines 275 to 366): the init
segment. In the `Declaration` arm, when the declarator list has exactly one
declarator whose initializer is an `in` binary, the statement.rs code emits a
`ForIn` whose right side is the binary's right operand while the declarator
list is kept unchanged (the `in` binary stays in the initializer). -/
def a_for_statement : Nat → ME AStatement
  | 0 => fun s => (.error .OutOfFuel, s)
  | f+1 => a_handled (do
      a_expect .ParenOpen
      let t ← a_next
      match t with
      | .Semicolon => a_for_statement_rest f none
      | .Declaration kind => do
        let declarators ← a_variable_declarators f
        match declarators with
        | ds@([ADeclarator.mk _ (some (.Binary _ .In _ right))]) =>
          a_for_in_statement_from_parts f (.Declaration kind ds) right
        | declarators => a_for_statement_with_init f (.Declaration kind declarators)
      | t => do
        let e ← a_lift (expression_from_token f t 0)
        match e with
        | .Binary _ .In left right =>
          a_for_in_statement_from_parts f (.Expression left) right
        | e => a_for_statement_with_init f (.Expression e))
termination_by structural f => f

/-- The `if let Some(init)` arm of the arena `for_statement` (statement.rs
lines 329 to 336). -/
def a_for_statement_with_init : Nat → AStatement → ME AStatement
  | 0, _ => fun s => (.error .OutOfFuel, s)
  | f+1, init => do
    let t ← a_next
    match t with
    | .Operator .In => a_for_in_statement f init
    | .Identifier "of" => a_for_of_statement f init
    | .Semicolon => a_for_statement_rest f (some init)
    | _ => a_throw
termination_by structural f _ => f

/-- The classic C-style tail of the arena `for_statement` (statement.rs
lines 338 to 365). -/
def a_for_statement_rest : Nat → Option AStatement → ME AStatement
  | 0, _ => fun s => (.error .OutOfFuel, s)
  | f+1, init => do
    let t ← a_next
    let test ←
      match t with
      | .Semicolon => pure (none : Option Expression)
      | t => do
        let e ← a_lift (expression_from_token f t 0)
        a_expect .Semicolon
        pure (some e)
    let t ← a_next
    let update ←
      match t with
      | .ParenClose => pure (none : Option Expression)
      | t => do
        let e ← a_lift (expression_from_token f t 0)
        a_expect .ParenClose
        pure (some e)
    let body ← a_expect_statement f
    pure (.For init test update body)
termination_by structural f _ => f

/-- `Parser::for_in_statement_from_parts` of statement.rs (lines 368
to 378). -/
def a_for_in_statement_from_parts : Nat → AStatement → Expression → ME AStatement
  | 0, _, _ => fun s => (.error .OutOfFuel, s)
  | f+1, left, right => do
    a_expect .ParenClose
    let body ← a_expect_statement f
    pure (.ForIn left right body)
termination_by structural f _ _ => f

/-- `Parser::for_in_statement` of statement.rs (lines 380 to 392). -/
def a_for_in_statement : Nat → AStatement → ME AStatement
  | 0, _ => fun s => (.error .OutOfFuel, s)
  | f+1, left => do
    let right ← a_lift (sequence_or_expression f)
    a_expect .ParenClose
    let body ← a_expect_statement f
    pure (.ForIn left right body)
termination_by structural f _ => f

/-- `Parser::for_of_statement` of statement.rs (lines 394 to 406). -/
def a_for_of_statement : Nat → AStatement → ME AStatement
  | 0, _ => fun s => (.error .OutOfFuel, s)
  | f+1, left => do
    let right ← a_lift (sequence_or_expression f)
    a_expect .ParenClose
    let body ← a_expect_statement f
    pure (.ForOf left right body)
termination_by structural f _ => f

end

/-- The arena parser's `Program` (modelled from the spec, sections 4.2 and 6;
the arena driver and module type are not in the snapshot): the source text, the
top-level statements, and the non-fatal error records. -/
structure AProgram where
  source : String
  body : List AStatement
  errors : List Err

/-- Modelled from the spec (section 4.2): the arena driver loop — consume
tokens until `EndOfProgram`, dispatching each into `a_statement` and appending
the (always total) result. -/
def a_parse_items : Nat → List AStatement → ME (List AStatement)
  | 0, _ => fun s => (.error .OutOfFuel, s)
  | f+1, acc => do
    let c ← a_current
    match c with
    | .EndOfProgram => pure acc
    | _ => do
      let t ← a_next
      let st ← a_statement f t
      a_parse_items f (acc ++ [st])

/-- Modelled from the spec (sections 4.2 and 6): the arena parse entry point
over a token stream, producing the statement body and the collected errors. -/
def a_parse_tokens (fuel : Nat) (items : List Item) : Except Err (List AStatement × List Err) :=
  match a_parse_items fuel [] (ASt.mk items []) with
  | (.ok body, s) => .ok (body, s.errors)
  | (.error e, _) => .error e

/-- Modelled from the spec (sections 4.2 and 6): the arena parse entry point
over a source string. -/
def a_parse (fuel : Nat) (source : String) : Except Err AProgram :=
  match tokenize source with
  | .error e => .error e
  | .ok items =>
    match a_parse_tokens fuel items with
    | .ok (body, errors) => .ok (AProgram.mk source body errors)
    | .error e => .error e



/-! ### AST invariants

Two families of recursive predicates over the Vec-based AST: every `Template`
node carries one more quasi than interpolated expressions, and every `Sequence`
node carries at least two elements. -/

mutual

/-- Every `Template` node in this expression has `quasis.length =
expressions.length + 1`. -/
def tmplOkE : Expression → Bool
  | .Void | .This | .Literal _ | .Identifier _ | .Error => true
  | .Array es => tmplOkEs es
  | .Sequence es => tmplOkEs es
  | .Object ms => tmplOkOMs ms
  | .Prefix _ e => tmplOkE e
  | .Postfix _ e => tmplOkE e
  | .Binary _ _ l r => tmplOkE l && tmplOkE r
  | .Conditional t c a => tmplOkE t && tmplOkE c && tmplOkE a
  | .ArrowFunction ps b => tmplOkPs ps && tmplOkS b
  | .Function _ ps b => tmplOkPs ps && tmplOkSs b
  | .Call c args => tmplOkE c && tmplOkEs args
  | .Member o _ => tmplOkE o
  | .ComputedMember o p => tmplOkE o && tmplOkE p
  | .Template tag es qs =>
    (qs.length == es.length + 1) && tmplOkOE tag && tmplOkEs es

/-- `tmplOkE` on an optional expression. -/
def tmplOkOE : Option Expression → Bool
  | none => true
  | some e => tmplOkE e

/-- `tmplOkE` on each element of a list. -/
def tmplOkEs : List Expression → Bool
  | [] => true
  | e :: es => tmplOkE e && tmplOkEs es

/-- `tmplOkE` inside each object member of a list. -/
def tmplOkOMs : List ObjectMember → Bool
  | [] => true
  | m :: ms => tmplOkOM m && tmplOkOMs ms

/-- `tmplOkE` inside an object member. -/
def tmplOkOM : ObjectMember → Bool
  | .Shorthand _ => true
  | .Value k v => tmplOkOK k && tmplOkE v
  | .Method k ps b => tmplOkOK k && tmplOkPs ps && tmplOkSs b

/-- `tmplOkE` inside an object key. -/
def tmplOkOK : ObjectKey → Bool
  | .Literal _ | .Binary _ => true
  | .Computed e => tmplOkE e

/-- `tmplOkE` inside each parameter of a list. -/
def tmplOkPs : List Parameter → Bool
  | [] => true
  | p :: ps => tmplOkP p && tmplOkPs ps

/-- `tmplOkE` inside a parameter's default. -/
def tmplOkP : Parameter → Bool
  | .mk _ none => true
  | .mk _ (some e) => tmplOkE e

/-- `tmplOkS` on each statement of a list. -/
def tmplOkSs : List Statement → Bool
  | [] => true
  | s :: ss => tmplOkS s && tmplOkSs ss

/-- `tmplOkS` on an optional statement. -/
def tmplOkOS : Option Statement → Bool
  | none => true
  | some s => tmplOkS s

/-- `tmplOkE` inside each declarator of a list. -/
def tmplOkDs : List Declarator → Bool
  | [] => true
  | d :: ds => tmplOkD d && tmplOkDs ds

/-- `tmplOkE` inside a declarator's initializer. -/
def tmplOkD : Declarator → Bool
  | .mk _ none => true
  | .mk _ (some e) => tmplOkE e

/-- `tmplOkE` inside a class key. -/
def tmplOkCK : ClassKey → Bool
  | .Computed e => tmplOkE e
  | _ => true

/-- `tmplOkCM` on each class member of a list. -/
def tmplOkCMs : List ClassMember → Bool
  | [] => true
  | m :: ms => tmplOkCM m && tmplOkCMs ms

/-- `tmplOkE` inside a class member. -/
def tmplOkCM : ClassMember → Bool
  | .Constructor ps b => tmplOkPs ps && tmplOkSs b
  | .Method _ k ps b => tmplOkCK k && tmplOkPs ps && tmplOkSs b
  | .Property _ k v => tmplOkCK k && tmplOkE v

/-- Every `Template` node in this statement has `quasis.length =
expressions.length + 1`. -/
def tmplOkS : Statement → Bool
  | .Empty | .Error => true
  | .Block b => tmplOkSs b
  | .Expression e => tmplOkE e
  | .VariableDeclaration _ ds => tmplOkDs ds
  | .Return v => tmplOkOE v
  | .Break _ => true
  | .Throw v => tmplOkE v
  | .Try b _ h => tmplOkS b && tmplOkS h
  | .If t c a => tmplOkE t && tmplOkS c && tmplOkOS a
  | .While t b => tmplOkE t && tmplOkS b
  | .For i t u b => tmplOkOS i && tmplOkOE t && tmplOkOE u && tmplOkS b
  | .ForIn l r b => tmplOkS l && tmplOkE r && tmplOkS b
  | .ForOf l r b => tmplOkS l && tmplOkE r && tmplOkS b
  | .Function _ ps b => tmplOkPs ps && tmplOkSs b
  | .Class _ _ ms => tmplOkCMs ms
  | .Labeled _ b => tmplOkS b

end

mutual

/-- Every `Sequence` node in this expression has at least two elements. -/
def seqOkE : Expression → Bool
  | .Void | .This | .Literal _ | .Identifier _ | .Error => true
  | .Array es => seqOkEs es
  | .Sequence es => (2 ≤ es.length) && seqOkEs es
  | .Object ms => seqOkOMs ms
  | .Prefix _ e => seqOkE e
  | .Postfix _ e => seqOkE e
  | .Binary _ _ l r => seqOkE l && seqOkE r
  | .Conditional t c a => seqOkE t && seqOkE c && seqOkE a
  | .ArrowFunction ps b => seqOkPs ps && seqOkS b
  | .Function _ ps b => seqOkPs ps && seqOkSs b
  | .Call c args => seqOkE c && seqOkEs args
  | .Member o _ => seqOkE o
  | .ComputedMember o p => seqOkE o && seqOkE p
  | .Template tag es _qs => seqOkOE tag && seqOkEs es

/-- `seqOkE` on an optional expression. -/
def seqOkOE : Option Expression → Bool
  | none => true
  | some e => seqOkE e

/-- `seqOkE` on each element of a list. -/
def seqOkEs : List Expression → Bool
  | [] => true
  | e :: es => seqOkE e && seqOkEs es

/-- `seqOkOM` on each object member of a list. -/
def seqOkOMs : List ObjectMember → Bool
  | [] => true
  | m :: ms => seqOkOM m && seqOkOMs ms

/-- `seqOkE` inside an object member. -/
def seqOkOM : ObjectMember → Bool
  | .Shorthand _ => true
  | .Value k v => seqOkOK k && seqOkE v
  | .Method k ps b => seqOkOK k && seqOkPs ps && seqOkSs b

/-- `seqOkE` inside an object key. -/
def seqOkOK : ObjectKey → Bool
  | .Literal _ | .Binary _ => true
  | .Computed e => seqOkE e

/-- `seqOkP` on each parameter of a list. -/
def seqOkPs : List Parameter → Bool
  | [] => true
  | p :: ps => seqOkP p && seqOkPs ps

/-- `seqOkE` inside a parameter's default. -/
def seqOkP : Parameter → Bool
  | .mk _ none => true
  | .mk _ (some e) => seqOkE e

/-- `seqOkS` on each statement of a list. -/
def seqOkSs : List Statement → Bool
  | [] => true
  | s :: ss => seqOkS s && seqOkSs ss

/-- `seqOkS` on an optional statement. -/
def seqOkOS : Option Statement → Bool
  | none => true
  | some s => seqOkS s

/-- `seqOkD` on each declarator of a list. -/
def seqOkDs : List Declarator → Bool
  | [] => true
  | d :: ds => seqOkD d && seqOkDs ds

/-- `seqOkE` inside a declarator's initializer. -/
def seqOkD : Declarator → Bool
  | .mk _ none => true
  | .mk _ (some e) => seqOkE e

/-- `seqOkE` inside a class key. -/
def seqOkCK : ClassKey → Bool
  | .Computed e => seqOkE e
  | _ => true

/-- `seqOkCM` on each class member of a list. -/
def seqOkCMs : List ClassMember → Bool
  | [] => true
  | m :: ms => seqOkCM m && seqOkCMs ms

/-- `seqOkE` inside a class member. -/
def seqOkCM : ClassMember → Bool
  | .Constructor ps b => seqOkPs ps && seqOkSs b
  | .Method _ k ps b => seqOkCK k && seqOkPs ps && seqOkSs b
  | .Property _ k v => seqOkCK k && seqOkE v

/-- Every `Sequence` node in this statement has at least two elements. -/
def seqOkS : Statement → Bool
  | .Empty | .Error => true
  | .Block b => seqOkSs b
  | .Expression e => seqOkE e
  | .VariableDeclaration _ ds => seqOkDs ds
  | .Return v => seqOkOE v
  | .Break _ => true
  | .Throw v => seqOkE v
  | .Try b _ h => seqOkS b && seqOkS h
  | .If t c a => seqOkE t && seqOkS c && seqOkOS a
  | .While t b => seqOkE t && seqOkS b
  | .For i t u b => seqOkOS i && seqOkOE t && seqOkOE u && seqOkS b
  | .ForIn l r b => seqOkS l && seqOkE r && seqOkS b
  | .ForOf l r b => seqOkS l && seqOkE r && seqOkS b
  | .Function _ ps b => seqOkPs ps && seqOkSs b
  | .Class _ _ ms => seqOkCMs ms
  | .Labeled _ b => seqOkS b

end

/-- Both invariants on an expression. -/
def okE (e : Expression) : Prop :=
  tmplOkE e = true ∧ seqOkE e = true

/-- Both invariants on an optional expression. -/
def okOE (e : Option Expression) : Prop :=
  tmplOkOE e = true ∧ seqOkOE e = true

/-- Both invariants on an expression list. -/
def okEs (l : List Expression) : Prop :=
  tmplOkEs l = true ∧ seqOkEs l = true

/-- Both invariants on a statement. -/
def okS (s : Statement) : Prop :=
  tmplOkS s = true ∧ seqOkS s = true

/-- Both invariants on an optional statement. -/
def okOS (s : Option Statement) : Prop :=
  tmplOkOS s = true ∧ seqOkOS s = true

/-- Both invariants on a statement list. -/
def okSs (l : List Statement) : Prop :=
  tmplOkSs l = true ∧ seqOkSs l = true

/-- Both invariants on an object member. -/
def okOM (m : ObjectMember) : Prop :=
  tmplOkOM m = true ∧ seqOkOM m = true

/-- Both invariants on an object member list. -/
def okOMs (l : List ObjectMember) : Prop :=
  tmplOkOMs l = true ∧ seqOkOMs l = true

/-- Both invariants on an object key. -/
def okOK (k : ObjectKey) : Prop :=
  tmplOkOK k = true ∧ seqOkOK k = true

/-- Both invariants on a parameter list. -/
def okPs (l : List Parameter) : Prop :=
  tmplOkPs l = true ∧ seqOkPs l = true

/-- Both invariants on a declarator list. -/
def okDs (l : List Declarator) : Prop :=
  tmplOkDs l = true ∧ seqOkDs l = true

/-- Both invariants on a class key. -/
def okCK (k : ClassKey) : Prop :=
  tmplOkCK k = true ∧ seqOkCK k = true

/-- Both invariants on a class member. -/
def okCM (m : ClassMember) : Prop :=
  tmplOkCM m = true ∧ seqOkCM m = true

/-- Both invariants on a class member list. -/
def okCMs (l : List ClassMember) : Prop :=
  tmplOkCMs l = true ∧ seqOkCMs l = true

/-- Appending expression lists preserves the invariants componentwise. -/
theorem okEs_append {l₁ l₂ : List Expression} (h₁ : okEs l₁) (h₂ : okEs l₂) :
    okEs (l₁ ++ l₂) := by
  induction l₁ with
  | nil => simpa using h₂
  | cons e es ih =>
    obtain ⟨h1, h2⟩ := h₁
    simp only [tmplOkEs, seqOkEs, Bool.and_eq_true] at h1 h2
    have := ih ⟨h1.2, h2.2⟩
    simp only [okEs, List.cons_append, tmplOkEs, seqOkEs, Bool.and_eq_true]
    exact ⟨⟨h1.1, this.1⟩, ⟨h2.1, this.2⟩⟩

/-- A singleton expression list satisfying the invariants. -/
theorem okEs_single {e : Expression} (h : okE e) : okEs [e] := by
  constructor <;> simp [tmplOkEs, seqOkEs, h.1, h.2]

/-- The empty expression list satisfies the invariants. -/
theorem okEs_nil : okEs [] :=
  ⟨rfl, rfl⟩

set_option maxHeartbeats 4000000

/-- Inversion of a successful `Except` bind. -/
theorem bindE_ok {ε α β : Type} {x : Except ε α} {g : α → Except ε β} {b : β} :
    (x >>= g) = .ok b ↔ ∃ a, x = .ok a ∧ g a = .ok b := by
  cases x <;> simp [Bind.bind, Except.bind]

/-- Both invariants on one parameter. -/
def okP (p : Parameter) : Prop :=
  tmplOkP p = true ∧ seqOkP p = true

/-- Both invariants on one declarator. -/
def okD (d : Declarator) : Prop :=
  tmplOkD d = true ∧ seqOkD d = true

theorem okE_leaf_void : okE .Void := ⟨rfl, rfl⟩

theorem okE_leaf_this : okE .This := ⟨rfl, rfl⟩

theorem okE_leaf_error : okE .Error := ⟨rfl, rfl⟩

theorem okE_leaf_literal (v : Value) : okE (.Literal v) := ⟨rfl, rfl⟩

theorem okE_leaf_identifier (n : String) : okE (.Identifier n) := ⟨rfl, rfl⟩

theorem okOE_none : okOE none := ⟨rfl, rfl⟩

theorem okOE_some {e : Expression} (h : okE e) : okOE (some e) := h

theorem okOS_none : okOS none := ⟨rfl, rfl⟩

theorem okOS_some {s : Statement} (h : okS s) : okOS (some s) := h

theorem okSs_nil : okSs [] := ⟨rfl, rfl⟩

theorem okOMs_nil : okOMs [] := ⟨rfl, rfl⟩

theorem okPs_nil : okPs [] := ⟨rfl, rfl⟩

theorem okDs_nil : okDs [] := ⟨rfl, rfl⟩

theorem okCMs_nil : okCMs [] := ⟨rfl, rfl⟩

theorem okEs_snoc {l : List Expression} {e : Expression} (hl : okEs l) (he : okE e) :
    okEs (l ++ [e]) :=
  okEs_append hl (okEs_single he)

theorem okSs_append {l₁ l₂ : List Statement} (h₁ : okSs l₁) (h₂ : okSs l₂) :
    okSs (l₁ ++ l₂) := by
  induction l₁ with
  | nil => simpa using h₂
  | cons x xs ih =>
    obtain ⟨h1, h2⟩ := h₁
    simp only [tmplOkSs, seqOkSs, Bool.and_eq_true] at h1 h2
    have := ih ⟨h1.2, h2.2⟩
    exact ⟨by simp [tmplOkSs, h1.1, this.1], by simp [seqOkSs, h2.1, this.2]⟩

theorem okSs_snoc {l : List Statement} {st : Statement} (hl : okSs l) (h : okS st) :
    okSs (l ++ [st]) :=
  okSs_append hl ⟨by simp [tmplOkSs, h.1], by simp [seqOkSs, h.2]⟩

theorem okOMs_snoc {l : List ObjectMember} {m : ObjectMember} (hl : okOMs l) (h : okOM m) :
    okOMs (l ++ [m]) := by
  induction l with
  | nil => exact ⟨by simp [tmplOkOMs, h.1], by simp [seqOkOMs, h.2]⟩
  | cons x xs ih =>
    obtain ⟨h1, h2⟩ := hl
    simp only [tmplOkOMs, seqOkOMs, Bool.and_eq_true] at h1 h2
    have := ih ⟨h1.2, h2.2⟩
    exact ⟨by simp [tmplOkOMs, h1.1, this.1], by simp [seqOkOMs, h2.1, this.2]⟩

theorem okPs_snoc {l : List Parameter} {p : Parameter} (hl : okPs l) (h : okP p) :
    okPs (l ++ [p]) := by
  induction l with
  | nil => exact ⟨by simp [tmplOkPs, h.1], by simp [seqOkPs, h.2]⟩
  | cons x xs ih =>
    obtain ⟨h1, h2⟩ := hl
    simp only [tmplOkPs, seqOkPs, Bool.and_eq_true] at h1 h2
    have := ih ⟨h1.2, h2.2⟩
    exact ⟨by simp [tmplOkPs, h1.1, this.1], by simp [seqOkPs, h2.1, this.2]⟩

theorem okDs_snoc {l : List Declarator} {d : Declarator} (hl : okDs l) (h : okD d) :
    okDs (l ++ [d]) := by
  induction l with
  | nil => exact ⟨by simp [tmplOkDs, h.1], by simp [seqOkDs, h.2]⟩
  | cons x xs ih =>
    obtain ⟨h1, h2⟩ := hl
    simp only [tmplOkDs, seqOkDs, Bool.and_eq_true] at h1 h2
    have := ih ⟨h1.2, h2.2⟩
    exact ⟨by simp [tmplOkDs, h1.1, this.1], by simp [seqOkDs, h2.1, this.2]⟩

theorem okCMs_snoc {l : List ClassMember} {m : ClassMember} (hl : okCMs l) (h : okCM m) :
    okCMs (l ++ [m]) := by
  induction l with
  | nil => exact ⟨by simp [tmplOkCMs, h.1], by simp [seqOkCMs, h.2]⟩
  | cons x xs ih =>
    obtain ⟨h1, h2⟩ := hl
    simp only [tmplOkCMs, seqOkCMs, Bool.and_eq_true] at h1 h2
    have := ih ⟨h1.2, h2.2⟩
    exact ⟨by simp [tmplOkCMs, h1.1, this.1], by simp [seqOkCMs, h2.1, this.2]⟩

theorem okE_array {es : List Expression} (h : okEs es) : okE (.Array es) :=
  ⟨by simp [tmplOkE, h.1], by simp [seqOkE, h.2]⟩

theorem okE_sequence {es : List Expression} (hlen : 2 ≤ es.length) (h : okEs es) :
    okE (.Sequence es) :=
  ⟨by simp [tmplOkE, h.1], by simp [seqOkE, h.2, hlen]⟩

theorem okE_object {ms : List ObjectMember} (h : okOMs ms) : okE (.Object ms) :=
  ⟨by simp [tmplOkE, h.1], by simp [seqOkE, h.2]⟩

theorem okE_prefix {op : Op} {e : Expression} (h : okE e) : okE (.Prefix op e) :=
  ⟨by simp [tmplOkE, h.1], by simp [seqOkE, h.2]⟩

theorem okE_postfix {op : Op} {e : Expression} (h : okE e) : okE (.Postfix op e) :=
  ⟨by simp [tmplOkE, h.1], by simp [seqOkE, h.2]⟩

theorem okE_binary {p : Bool} {op : Op} {l r : Expression} (hl : okE l) (hr : okE r) :
    okE (.Binary p op l r) :=
  ⟨by simp [tmplOkE, hl.1, hr.1], by simp [seqOkE, hl.2, hr.2]⟩

theorem okE_conditional {t c a : Expression} (ht : okE t) (hc : okE c) (ha : okE a) :
    okE (.Conditional t c a) :=
  ⟨by simp [tmplOkE, ht.1, hc.1, ha.1], by simp [seqOkE, ht.2, hc.2, ha.2]⟩

theorem okE_arrow {ps : List Parameter} {b : Statement} (hp : okPs ps) (hb : okS b) :
    okE (.ArrowFunction ps b) :=
  ⟨by simp [tmplOkE, hp.1, hb.1], by simp [seqOkE, hp.2, hb.2]⟩

theorem okE_function {n : Option String} {ps : List Parameter} {b : List Statement}
    (hp : okPs ps) (hb : okSs b) : okE (.Function n ps b) :=
  ⟨by simp [tmplOkE, hp.1, hb.1], by simp [seqOkE, hp.2, hb.2]⟩

theorem okE_call {c : Expression} {args : List Expression} (hc : okE c) (ha : okEs args) :
    okE (.Call c args) :=
  ⟨by simp [tmplOkE, hc.1, ha.1], by simp [seqOkE, hc.2, ha.2]⟩

theorem okE_member {o : Expression} {p : String} (h : okE o) : okE (.Member o p) :=
  ⟨by simp [tmplOkE, h.1], by simp [seqOkE, h.2]⟩

theorem okE_computed {o p : Expression} (ho : okE o) (hp : okE p) :
    okE (.ComputedMember o p) :=
  ⟨by simp [tmplOkE, ho.1, hp.1], by simp [seqOkE, ho.2, hp.2]⟩

theorem okE_template {tag : Option Expression} {es : List Expression} {qs : List String}
    (hlen : qs.length = es.length + 1) (ht : okOE tag) (he : okEs es) :
    okE (.Template tag es qs) :=
  ⟨by simp [tmplOkE, hlen, ht.1, he.1], by simp [seqOkE, ht.2, he.2]⟩

theorem okS_empty : okS .Empty := ⟨rfl, rfl⟩

theorem okS_error : okS .Error := ⟨rfl, rfl⟩

theorem okS_break (l : Option String) : okS (.Break l) := ⟨rfl, rfl⟩

theorem okS_block {b : List Statement} (h : okSs b) : okS (.Block b) :=
  ⟨by simp [tmplOkS, h.1], by simp [seqOkS, h.2]⟩

theorem okS_expression {e : Expression} (h : okE e) : okS (.Expression e) :=
  ⟨by simp [tmplOkS, h.1], by simp [seqOkS, h.2]⟩

theorem okS_from_expression {e : Expression} (h : okE e) : okS (Statement.fromExpression e) :=
  okS_expression h

theorem okS_vdecl {k : VariableDeclarationKind} {ds : List Declarator} (h : okDs ds) :
    okS (.VariableDeclaration k ds) :=
  ⟨by simp [tmplOkS, h.1], by simp [seqOkS, h.2]⟩

theorem okS_return {v : Option Expression} (h : okOE v) : okS (.Return v) :=
  ⟨by simp [tmplOkS, h.1], by simp [seqOkS, h.2]⟩

theorem okS_throw {v : Expression} (h : okE v) : okS (.Throw v) :=
  ⟨by simp [tmplOkS, h.1], by simp [seqOkS, h.2]⟩

theorem okS_try {b : Statement} {e : String} {hd : Statement} (hb : okS b) (hh : okS hd) :
    okS (.Try b e hd) :=
  ⟨by simp [tmplOkS, hb.1, hh.1], by simp [seqOkS, hb.2, hh.2]⟩

theorem okS_if {t : Expression} {c : Statement} {a : Option Statement}
    (ht : okE t) (hc : okS c) (ha : okOS a) : okS (.If t c a) :=
  ⟨by simp [tmplOkS, ht.1, hc.1, ha.1], by simp [seqOkS, ht.2, hc.2, ha.2]⟩

theorem okS_while {t : Expression} {b : Statement} (ht : okE t) (hb : okS b) :
    okS (.While t b) :=
  ⟨by simp [tmplOkS, ht.1, hb.1], by simp [seqOkS, ht.2, hb.2]⟩

theorem okS_for {i : Option Statement} {t u : Option Expression} {b : Statement}
    (hi : okOS i) (ht : okOE t) (hu : okOE u) (hb : okS b) : okS (.For i t u b) :=
  ⟨by simp [tmplOkS, hi.1, ht.1, hu.1, hb.1], by simp [seqOkS, hi.2, ht.2, hu.2, hb.2]⟩

theorem okS_forin {l : Statement} {r : Expression} {b : Statement}
    (hl : okS l) (hr : okE r) (hb : okS b) : okS (.ForIn l r b) :=
  ⟨by simp [tmplOkS, hl.1, hr.1, hb.1], by simp [seqOkS, hl.2, hr.2, hb.2]⟩

theorem okS_forof {l : Statement} {r : Expression} {b : Statement}
    (hl : okS l) (hr : okE r) (hb : okS b) : okS (.ForOf l r b) :=
  ⟨by simp [tmplOkS, hl.1, hr.1, hb.1], by simp [seqOkS, hl.2, hr.2, hb.2]⟩

theorem okS_function {n : String} {ps : List Parameter} {b : List Statement}
    (hp : okPs ps) (hb : okSs b) : okS (.Function n ps b) :=
  ⟨by simp [tmplOkS, hp.1, hb.1], by simp [seqOkS, hp.2, hb.2]⟩

theorem okS_class {n : String} {sc : Option String} {ms : List ClassMember}
    (h : okCMs ms) : okS (.Class n sc ms) :=
  ⟨by simp [tmplOkS, h.1], by simp [seqOkS, h.2]⟩

theorem okS_labeled {l : String} {b : Statement} (h : okS b) : okS (.Labeled l b) :=
  ⟨by simp [tmplOkS, h.1], by simp [seqOkS, h.2]⟩

theorem okP_mk (n : String) {d : Option Expression} (h : okOE d) : okP (.mk n d) := by
  cases d with
  | none => exact ⟨rfl, rfl⟩
  | some e =>
    have h1 := h.1
    have h2 := h.2
    simp only [tmplOkOE] at h1
    simp only [seqOkOE] at h2
    exact ⟨by simp [tmplOkP, h1], by simp [seqOkP, h2]⟩

theorem okD_mk (n : String) {v : Option Expression} (h : okOE v) : okD (.mk n v) := by
  cases v with
  | none => exact ⟨rfl, rfl⟩
  | some e =>
    have h1 := h.1
    have h2 := h.2
    simp only [tmplOkOE] at h1
    simp only [seqOkOE] at h2
    exact ⟨by simp [tmplOkD, h1], by simp [seqOkD, h2]⟩

theorem okOM_shorthand (k : String) : okOM (.Shorthand k) := ⟨rfl, rfl⟩

theorem okOM_value {k : ObjectKey} {v : Expression} (hk : okOK k) (hv : okE v) :
    okOM (.Value k v) :=
  ⟨by simp [tmplOkOM, hk.1, hv.1], by simp [seqOkOM, hk.2, hv.2]⟩

theorem okOM_method {k : ObjectKey} {ps : List Parameter} {b : List Statement}
    (hk : okOK k) (hp : okPs ps) (hb : okSs b) : okOM (.Method k ps b) :=
  ⟨by simp [tmplOkOM, hk.1, hp.1, hb.1], by simp [seqOkOM, hk.2, hp.2, hb.2]⟩

theorem okOK_literal (s : String) : okOK (.Literal s) := ⟨rfl, rfl⟩

theorem okOK_binary (n : Nat) : okOK (.Binary n) := ⟨rfl, rfl⟩

theorem okOK_computed {e : Expression} (h : okE e) : okOK (.Computed e) :=
  ⟨by simp [tmplOkOK, h.1], by simp [seqOkOK, h.2]⟩

theorem okCK_literal (s : String) : okCK (.Literal s) := ⟨rfl, rfl⟩

theorem okCK_number (s : String) : okCK (.Number s) := ⟨rfl, rfl⟩

theorem okCK_binary (n : Nat) : okCK (.Binary n) := ⟨rfl, rfl⟩

theorem okCK_computed {e : Expression} (h : okE e) : okCK (.Computed e) :=
  ⟨by simp [tmplOkCK, h.1], by simp [seqOkCK, h.2]⟩

theorem okCM_constructor {ps : List Parameter} {b : List Statement}
    (hp : okPs ps) (hb : okSs b) : okCM (.Constructor ps b) :=
  ⟨by simp [tmplOkCM, hp.1, hb.1], by simp [seqOkCM, hp.2, hb.2]⟩

theorem okCM_method {st : Bool} {k : ClassKey} {ps : List Parameter} {b : List Statement}
    (hk : okCK k) (hp : okPs ps) (hb : okSs b) : okCM (.Method st k ps b) :=
  ⟨by simp [tmplOkCM, hk.1, hp.1, hb.1], by simp [seqOkCM, hk.2, hp.2, hb.2]⟩

theorem okCM_property {st : Bool} {k : ClassKey} {v : Expression}
    (hk : okCK k) (hv : okE v) : okCM (.Property st k v) :=
  ⟨by simp [tmplOkCM, hk.1, hv.1], by simp [seqOkCM, hk.2, hv.2]⟩

/-- The result of `Expression.parenthesize` keeps both invariants. -/
theorem okE_parenthesize {e : Expression} (h : okE e) : okE e.parenthesize := by
  cases e <;> simpa only [Expression.parenthesize] using h

/-- `regular_expression` produces a literal, which keeps both invariants. -/
theorem regular_expression_ok {s : St} {e : Expression} {s' : St}
    (h : regular_expression s = .ok (e, s')) : okE e := by
  unfold regular_expression at h
  split at h
  · simp at h
  · split at h
    · simp only [Except.ok.injEq, Prod.mk.injEq] at h
      obtain ⟨h1, -⟩ := h
      subst h1
      exact okE_leaf_literal _
    · simp at h

/-- The parameter conversion of `arrow_function_expression` preserves the
invariants: each produced default is a subterm of the given sequence. -/
theorem arrow_params_ok : ∀ {list : List Expression} {ps : List Parameter},
    arrow_params_from_sequence list = .ok ps → okEs list → okPs ps := by
  intro list
  induction list with
  | nil =>
    intro ps h _
    simp only [arrow_params_from_sequence, Except.ok.injEq] at h
    exact h ▸ okPs_nil
  | cons e rest ih =>
    intro ps h hl
    have hl1 : okE e := ⟨by have := hl.1; simp only [tmplOkEs, Bool.and_eq_true] at this; exact this.1,
                         by have := hl.2; simp only [seqOkEs, Bool.and_eq_true] at this; exact this.1⟩
    have hl2 : okEs rest := ⟨by have := hl.1; simp only [tmplOkEs, Bool.and_eq_true] at this; exact this.2,
                             by have := hl.2; simp only [seqOkEs, Bool.and_eq_true] at this; exact this.2⟩
    rw [arrow_params_from_sequence.eq_def] at h
    split at h
    next heq => exact absurd heq (by simp)
    next e' rest' heq =>
      injection heq with he hr
      subst he
      subst hr
      split at h
      next p left right =>
        split at h
        next name =>
          simp only [bindE_ok, Except.ok.injEq] at h
          obtain ⟨p1, hp1, tl, htl, hps⟩ := h
          subst hps
          subst hp1
          have t1 := hl1.1
          have t2 := hl1.2
          simp only [tmplOkE, Bool.and_eq_true] at t1
          simp only [seqOkE, Bool.and_eq_true] at t2
          have hpp : okP (Parameter.mk name (some right)) := okP_mk _ (okOE_some ⟨t1.2, t2.2⟩)
          have hrest := ih htl hl2
          exact ⟨by simp [tmplOkPs, hpp.1, hrest.1], by simp [seqOkPs, hpp.2, hrest.2]⟩
        next => simp [bindE_ok] at h
      next name =>
        simp only [bindE_ok, Except.ok.injEq] at h
        obtain ⟨p1, hp1, tl, htl, hps⟩ := h
        subst hps
        subst hp1
        have hrest := ih htl hl2
        have hpp : okP (Parameter.mk name none) := okP_mk _ okOE_none
        exact ⟨by simp [tmplOkPs, hpp.1, hrest.1], by simp [seqOkPs, hpp.2, hrest.2]⟩
      next => simp [bindE_ok] at h

/-- Successful bind of an explicit `Except.ok`. -/
theorem ok_bindE {ε α β : Type} {a : α} {g : α → Except ε β} :
    (Except.ok a >>= g : Except ε β) = g a := rfl

/-- The invariant package for the Vec-based parser at one fuel level: every
production that returns AST data returns data satisfying both AST invariants
(`tmplOk`, every template has one more quasi than expressions, and `seqOk`,
every sequence has at least two elements), given that the AST values it was
handed satisfy them. -/
structure MasterP (f : Nat) : Prop where
  arr_items : ∀ list s es s', array_expression_items f list s = .ok (es, s') →
    okEs list → okEs es
  arr : ∀ s e s', array_expression f s = .ok (e, s') → okE e
  oml_items : ∀ list s ms s', object_member_list_items f list s = .ok (ms, s') →
    okOMs list → okOMs ms
  oml : ∀ s ms s', object_member_list f s = .ok (ms, s') → okOMs ms
  om : ∀ t s m s', object_member f t s = .ok (m, s') → okOM m
  omk : ∀ k s m s', object_member_with_key f k s = .ok (m, s') → okOK k → okOM m
  oe : ∀ s e s', object_expression f s = .ok (e, s') → okE e
  bs : ∀ s st s', block_statement f s = .ok (st, s') → okS st
  bbt_items : ∀ body s sts s', block_body_tail_items f body s = .ok (sts, s') →
    okSs body → okSs sts
  bbt : ∀ s sts s', block_body_tail f s = .ok (sts, s') → okSs sts
  bb : ∀ s sts s', block_body f s = .ok (sts, s') → okSs sts
  arrow : ∀ p s e s', arrow_function_expression f p s = .ok (e, s') → okOE p → okE e
  pre : ∀ op s e s', prefix_expression f op s = .ok (e, s') → okE e
  inf : ∀ left bp op s e s', infix_expression f left bp op s = .ok (e, s') →
    okE left → okE e
  fe : ∀ s e s', function_expression f s = .ok (e, s') → okE e
  tmpl_items : ∀ exprs quasis kind s es qs s',
    template_expression_items f exprs quasis kind s = .ok ((es, qs), s') → okEs exprs →
    okEs es ∧ qs.length + exprs.length = es.length + quasis.length + 1
  tmpl : ∀ tag kind s e s', template_expression f tag kind s = .ok (e, s') → okOE tag → okE e
  paren : ∀ s e s', paren_expression f s = .ok (e, s') → okE e
  soe : ∀ s e s', sequence_or_expression f s = .ok (e, s') → okE e
  soet : ∀ t s e s', sequence_or_expression_from_token f t s = .ok (e, s') → okE e
  soi : ∀ list s e s', sequence_or_items f list s = .ok (e, s') → okEs list →
    2 ≤ list.length → okE e
  so : ∀ first s e s', sequence_or f first s = .ok (e, s') → okE first → okE e
  el_items : ∀ list s es s', expression_list_items f list s = .ok (es, s') →
    okEs list → okEs es
  el : ∀ s es s', expression_list f s = .ok (es, s') → okEs es
  expr : ∀ lbp s e s', expression f lbp s = .ok (e, s') → okE e
  eft : ∀ t lbp s e s', expression_from_token f t lbp s = .ok (e, s') → okE e
  ce : ∀ left lbp s e s', complex_expression f left lbp s = .ok (e, s') → okE left → okE e
  vd : ∀ kind s st s', variable_declaration f kind s = .ok (st, s') → okS st
  vdi : ∀ list s ds s', variable_declarators_items f list s = .ok (ds, s') →
    okDs list → okDs ds
  vds : ∀ s ds s', variable_declarators f s = .ok (ds, s') → okDs ds
  vdst : ∀ kind s st s', variable_declaration_statement f kind s = .ok (st, s') → okS st
  les : ∀ label s st s', labeled_or_expression_statement f label s = .ok (st, s') → okS st
  exsta : ∀ t s st s', expression_statement f t s = .ok (st, s') → okS st
  ret : ∀ s st s', return_statement f s = .ok (st, s') → okS st
  thr : ∀ s st s', throw_statement f s = .ok (st, s') → okS st
  trys : ∀ s st s', try_statement f s = .ok (st, s') → okS st
  brk : ∀ s st s', break_statement f s = .ok (st, s') → okS st
  ifs : ∀ s st s', if_statement f s = .ok (st, s') → okS st
  whs : ∀ s st s', while_statement f s = .ok (st, s') → okS st
  fors : ∀ s st s', for_statement f s = .ok (st, s') → okS st
  forsi : ∀ init s st s', for_statement_with_init f init s = .ok (st, s') → okS init → okS st
  forsr : ∀ init s st s', for_statement_rest f init s = .ok (st, s') → okOS init → okS st
  fifp : ∀ left right s st s', for_in_statement_from_parts f left right s = .ok (st, s') →
    okS left → okE right → okS st
  fis : ∀ left s st s', for_in_statement f left s = .ok (st, s') → okS left → okS st
  fos : ∀ left s st s', for_of_statement f left s = .ok (st, s') → okS left → okS st
  pli : ∀ dp list s ps s', parameter_list_items f dp list s = .ok (ps, s') → okPs list → okPs ps
  plsep : ∀ dp list s ps s', parameter_list_sep f dp list s = .ok (ps, s') → okPs list → okPs ps
  pl : ∀ s ps s', parameter_list f s = .ok (ps, s') → okPs ps
  fsta : ∀ s st s', function_statement f s = .ok (st, s') → okS st
  cm : ∀ key b s m s', class_member f key b s = .ok (m, s') → okCK key → okCM m
  cbi : ∀ ms s res s', class_body_items f ms s = .ok (res, s') → okCMs ms → okCMs res
  cbm : ∀ ms key b s res s', class_body_member f ms key b s = .ok (res, s') →
    okCMs ms → okCK key → okCMs res
  cls : ∀ s st s', class_statement f s = .ok (st, s') → okS st
  exs : ∀ s st s', expect_statement f s = .ok (st, s') → okS st
  stm : ∀ t s st s', statement f t s = .ok (st, s') → okS st
  pbi : ∀ body s sts s', parse_body_items f body s = .ok (sts, s') → okSs body → okSs sts
  pb : ∀ s sts s', parse_body f s = .ok (sts, s') → okSs sts

/-- At fuel zero every production fails, so the invariant package holds
vacuously. -/
theorem masterP_zero : MasterP 0 where
  arr_items := by intro _ _ _ _ h _; rw [array_expression_items] at h; exact Except.noConfusion h
  arr := by intro _ _ _ h; rw [array_expression] at h; exact Except.noConfusion h
  oml_items := by intro _ _ _ _ h _; rw [object_member_list_items] at h; exact Except.noConfusion h
  oml := by intro _ _ _ h; rw [object_member_list] at h; exact Except.noConfusion h
  om := by intro _ _ _ _ h; rw [object_member] at h; exact Except.noConfusion h
  omk := by intro _ _ _ _ h _; rw [object_member_with_key] at h; exact Except.noConfusion h
  oe := by intro _ _ _ h; rw [object_expression] at h; exact Except.noConfusion h
  bs := by intro _ _ _ h; rw [block_statement] at h; exact Except.noConfusion h
  bbt_items := by intro _ _ _ _ h _; rw [block_body_tail_items] at h; exact Except.noConfusion h
  bbt := by intro _ _ _ h; rw [block_body_tail] at h; exact Except.noConfusion h
  bb := by intro _ _ _ h; rw [block_body] at h; exact Except.noConfusion h
  arrow := by intro _ _ _ _ h _; rw [arrow_function_expression] at h; exact Except.noConfusion h
  pre := by intro _ _ _ _ h; rw [prefix_expression] at h; exact Except.noConfusion h
  inf := by intro _ _ _ _ _ _ h _; rw [infix_expression] at h; exact Except.noConfusion h
  fe := by intro _ _ _ h; rw [function_expression] at h; exact Except.noConfusion h
  tmpl_items := by intro _ _ _ _ _ _ _ h _; rw [template_expression_items] at h; exact Except.noConfusion h
  tmpl := by intro _ _ _ _ _ h _; rw [template_expression] at h; exact Except.noConfusion h
  paren := by intro _ _ _ h; rw [paren_expression] at h; exact Except.noConfusion h
  soe := by intro _ _ _ h; rw [sequence_or_expression] at h; exact Except.noConfusion h
  soet := by intro _ _ _ _ h; rw [sequence_or_expression_from_token] at h; exact Except.noConfusion h
  soi := by intro _ _ _ _ h _ _; rw [sequence_or_items] at h; exact Except.noConfusion h
  so := by intro _ _ _ _ h _; rw [sequence_or] at h; exact Except.noConfusion h
  el_items := by intro _ _ _ _ h _; rw [expression_list_items] at h; exact Except.noConfusion h
  el := by intro _ _ _ h; rw [expression_list] at h; exact Except.noConfusion h
  expr := by intro _ _ _ _ h; rw [expression] at h; exact Except.noConfusion h
  eft := by intro _ _ _ _ _ h; rw [expression_from_token] at h; exact Except.noConfusion h
  ce := by intro _ _ _ _ _ h _; rw [complex_expression] at h; exact Except.noConfusion h
  vd := by intro _ _ _ _ h; rw [variable_declaration] at h; exact Except.noConfusion h
  vdi := by intro _ _ _ _ h _; rw [variable_declarators_items] at h; exact Except.noConfusion h
  vds := by intro _ _ _ h; rw [variable_declarators] at h; exact Except.noConfusion h
  vdst := by intro _ _ _ _ h; rw [variable_declaration_statement] at h; exact Except.noConfusion h
  les := by intro _ _ _ _ h; rw [labeled_or_expression_statement] at h; exact Except.noConfusion h
  exsta := by intro _ _ _ _ h; rw [expression_statement] at h; exact Except.noConfusion h
  ret := by intro _ _ _ h; rw [return_statement] at h; exact Except.noConfusion h
  thr := by intro _ _ _ h; rw [throw_statement] at h; exact Except.noConfusion h
  trys := by intro _ _ _ h; rw [try_statement] at h; exact Except.noConfusion h
  brk := by intro _ _ _ h; rw [break_statement] at h; exact Except.noConfusion h
  ifs := by intro _ _ _ h; rw [if_statement] at h; exact Except.noConfusion h
  whs := by intro _ _ _ h; rw [while_statement] at h; exact Except.noConfusion h
  fors := by intro _ _ _ h; rw [for_statement] at h; exact Except.noConfusion h
  forsi := by intro _ _ _ _ h _; rw [for_statement_with_init] at h; exact Except.noConfusion h
  forsr := by intro _ _ _ _ h _; rw [for_statement_rest] at h; exact Except.noConfusion h
  fifp := by intro _ _ _ _ _ h _ _; rw [for_in_statement_from_parts] at h; exact Except.noConfusion h
  fis := by intro _ _ _ _ h _; rw [for_in_statement] at h; exact Except.noConfusion h
  fos := by intro _ _ _ _ h _; rw [for_of_statement] at h; exact Except.noConfusion h
  pli := by intro _ _ _ _ _ h _; rw [parameter_list_items] at h; exact Except.noConfusion h
  plsep := by intro _ _ _ _ _ h _; rw [parameter_list_sep] at h; exact Except.noConfusion h
  pl := by intro _ _ _ h; rw [parameter_list] at h; exact Except.noConfusion h
  fsta := by intro _ _ _ h; rw [function_statement] at h; exact Except.noConfusion h
  cm := by intro _ _ _ _ _ h _; rw [class_member] at h; exact Except.noConfusion h
  cbi := by intro _ _ _ _ h _; rw [class_body_items] at h; exact Except.noConfusion h
  cbm := by intro _ _ _ _ _ _ h _ _; rw [class_body_member] at h; exact Except.noConfusion h
  cls := by intro _ _ _ h; rw [class_statement] at h; exact Except.noConfusion h
  exs := by intro _ _ _ h; rw [expect_statement] at h; exact Except.noConfusion h
  stm := by intro _ _ _ _ h; rw [statement] at h; exact Except.noConfusion h
  pbi := by intro _ _ _ _ h _; rw [parse_body_items] at h; exact Except.noConfusion h
  pb := by intro _ _ _ h; rw [parse_body] at h; exact Except.noConfusion h



set_option maxHeartbeats 4000000

/-- Inversion for `okE` at a binary node. -/
theorem okE_binary_inv {p : Bool} {op : Op} {l r : Expression}
    (h : okE (.Binary p op l r)) : okE l ∧ okE r := by
  obtain ⟨t1, t2⟩ := h
  simp only [tmplOkE, Bool.and_eq_true] at t1
  simp only [seqOkE, Bool.and_eq_true] at t2
  exact ⟨⟨t1.1, t2.1⟩, ⟨t1.2, t2.2⟩⟩

/-- Inversion for `okE` at a sequence node. -/
theorem okE_sequence_inv {es : List Expression} (h : okE (.Sequence es)) : okEs es := by
  obtain ⟨t1, t2⟩ := h
  simp only [tmplOkE] at t1
  simp only [seqOkE, Bool.and_eq_true] at t2
  exact ⟨t1, t2.2⟩

/-- Inversion for `okD` at a declarator with an initializer. -/
theorem okD_some_inv {n : String} {e : Expression} (h : okD (.mk n (some e))) : okE e := by
  obtain ⟨t1, t2⟩ := h
  simp only [tmplOkD] at t1
  simp only [seqOkD] at t2
  exact ⟨t1, t2⟩

/-- Inversion for `okDs` at a singleton list. -/
theorem okDs_singleton_inv {d : Declarator} (h : okDs [d]) : okD d := by
  obtain ⟨t1, t2⟩ := h
  simp only [tmplOkDs, Bool.and_eq_true, Bool.and_true] at t1
  simp only [seqOkDs, Bool.and_eq_true, Bool.and_true] at t2
  exact ⟨t1, t2⟩

/-- `okDs` for a singleton list. -/
theorem okDs_singleton {d : Declarator} (h : okD d) : okDs [d] :=
  okDs_snoc okDs_nil h

/-- `okEs` for a two-element list. -/
theorem okEs_pair {a b : Expression} (ha : okE a) (hb : okE b) : okEs [a, b] :=
  okEs_append (okEs_single ha) (okEs_single hb)

/-- `okPs` for a singleton list. -/
theorem okPs_singleton {p : Parameter} (h : okP p) : okPs [p] :=
  okPs_snoc okPs_nil h

/-- The induction step for the invariant package: at fuel `f + 1` every
production preserves both AST invariants, given the package at fuel `f`. -/
theorem masterP_succ (f : Nat) (ih : MasterP f) : MasterP (f + 1) where
  arr_items := by
    intro list s es s' h hl
    rw [array_expression_items] at h
    simp only [bindE_ok] at h
    obtain ⟨⟨t, s₁⟩, -, h⟩ := h
    split at h
    · simp only [Except.ok.injEq, Prod.mk.injEq] at h
      obtain ⟨rfl, rfl⟩ := h
      exact hl
    · exact ih.arr_items _ _ _ _ h (okEs_snoc hl okE_leaf_void)
    · simp only [bindE_ok] at h
      obtain ⟨⟨e, s₂⟩, he, h⟩ := h
      obtain ⟨⟨t2, s₃⟩, -, h⟩ := h
      have hok := ih.eft _ _ _ _ _ he
      split at h
      · simp only [Except.ok.injEq, Prod.mk.injEq] at h
        obtain ⟨rfl, rfl⟩ := h
        exact okEs_snoc hl hok
      · exact ih.arr_items _ _ _ _ h (okEs_snoc hl hok)
      · simp at h
  arr := by
    intro s e s' h
    rw [array_expression] at h
    simp only [bindE_ok] at h
    obtain ⟨⟨list, s₁⟩, hli, h⟩ := h
    simp only [Except.ok.injEq, Prod.mk.injEq] at h
    obtain ⟨rfl, rfl⟩ := h
    exact okE_array (ih.arr_items _ _ _ _ hli okEs_nil)
  oml_items := by
    intro list s ms s' h hl
    rw [object_member_list_items] at h
    simp only [bindE_ok] at h
    obtain ⟨⟨t, s₁⟩, -, h⟩ := h
    split at h
    · simp only [Except.ok.injEq, Prod.mk.injEq] at h
      obtain ⟨rfl, rfl⟩ := h
      exact hl
    · simp only [bindE_ok] at h
      obtain ⟨⟨m, s₂⟩, hm, h⟩ := h
      obtain ⟨⟨t2, s₃⟩, -, h⟩ := h
      have hok := ih.om _ _ _ _ hm
      split at h
      · simp only [Except.ok.injEq, Prod.mk.injEq] at h
        obtain ⟨rfl, rfl⟩ := h
        exact okOMs_snoc hl hok
      · exact ih.oml_items _ _ _ _ h (okOMs_snoc hl hok)
      · simp at h
  oml := by
    intro s ms s' h
    rw [object_member_list] at h
    exact ih.oml_items _ _ _ _ h okOMs_nil
  om := by
    intro t s m s' h
    rw [object_member.eq_def] at h
    split at h
    · exact Except.noConfusion h
    · rename_i fx heq
      obtain rfl : fx = f := by omega
      split at h
      · -- Identifier
        simp only [bindE_ok] at h
        obtain ⟨⟨t2, s₁⟩, -, h⟩ := h
        split at h
        · exact ih.omk _ _ _ _ h (okOK_literal _)
        · exact ih.omk _ _ _ _ h (okOK_literal _)
        · simp only [Except.ok.injEq, Prod.mk.injEq] at h
          obtain ⟨rfl, rfl⟩ := h
          exact okOM_shorthand _
      · -- BracketOpen
        simp only [bindE_ok] at h
        obtain ⟨⟨e, s₁⟩, he, h⟩ := h
        obtain ⟨⟨u, s₂⟩, -, h⟩ := h
        exact ih.omk _ _ _ _ h (okOK_computed (ih.expr _ _ _ _ he))
      · exact ih.omk _ _ _ _ h (okOK_literal _)
      · exact ih.omk _ _ _ _ h (okOK_literal _)
      · exact ih.omk _ _ _ _ h (okOK_binary _)
      · split at h
        · exact ih.omk _ _ _ _ h (okOK_literal _)
        · exact Except.noConfusion h
  omk := by
    intro k s m s' h hk
    rw [object_member_with_key] at h
    simp only [bindE_ok] at h
    obtain ⟨⟨t, s₁⟩, -, h⟩ := h
    split at h
    · simp only [bindE_ok] at h
      obtain ⟨⟨v, s₂⟩, hv, h⟩ := h
      simp only [Except.ok.injEq, Prod.mk.injEq] at h
      obtain ⟨rfl, rfl⟩ := h
      exact okOM_value hk (ih.expr _ _ _ _ hv)
    · simp only [bindE_ok] at h
      obtain ⟨⟨ps, s₂⟩, hps, h⟩ := h
      obtain ⟨⟨body, s₃⟩, hb, h⟩ := h
      simp only [Except.ok.injEq, Prod.mk.injEq] at h
      obtain ⟨rfl, rfl⟩ := h
      exact okOM_method hk (ih.pl _ _ _ hps) (ih.bb _ _ _ hb)
    · simp at h
  oe := by
    intro s e s' h
    rw [object_expression] at h
    simp only [bindE_ok] at h
    obtain ⟨⟨ms, s₁⟩, hms, h⟩ := h
    simp only [Except.ok.injEq, Prod.mk.injEq] at h
    obtain ⟨rfl, rfl⟩ := h
    exact okE_object (ih.oml _ _ _ hms)
  bs := by
    intro s st s' h
    rw [block_statement] at h
    simp only [bindE_ok] at h
    obtain ⟨⟨body, s₁⟩, hb, h⟩ := h
    simp only [Except.ok.injEq, Prod.mk.injEq] at h
    obtain ⟨rfl, rfl⟩ := h
    exact okS_block (ih.bbt _ _ _ hb)
  bbt_items := by
    intro body s sts s' h hl
    rw [block_body_tail_items] at h
    simp only [bindE_ok] at h
    obtain ⟨⟨t, s₁⟩, -, h⟩ := h
    split at h
    · simp only [Except.ok.injEq, Prod.mk.injEq] at h
      obtain ⟨rfl, rfl⟩ := h
      exact hl
    · simp only [bindE_ok] at h
      obtain ⟨⟨st, s₂⟩, hst, h⟩ := h
      exact ih.bbt_items _ _ _ _ h (okSs_snoc hl (ih.stm _ _ _ _ hst))
  bbt := by
    intro s sts s' h
    rw [block_body_tail] at h
    exact ih.bbt_items _ _ _ _ h okSs_nil
  bb := by
    intro s sts s' h
    rw [block_body] at h
    simp only [bindE_ok] at h
    obtain ⟨⟨u, s₁⟩, -, h⟩ := h
    exact ih.bbt _ _ _ h
  arrow := by
    intro p s e s' h hp
    rw [arrow_function_expression.eq_def] at h
    split at h
    · exact Except.noConfusion h
    · rename_i fx heq
      obtain rfl : fx = f := by omega
      split at h
      · -- p = none
        simp only [ok_bindE, bindE_ok] at h
        obtain ⟨⟨t, s₁⟩, -, h⟩ := h
        split at h
        · simp only [bindE_ok] at h
          obtain ⟨⟨body, s₂⟩, hb, h⟩ := h
          simp only [Except.ok.injEq, Prod.mk.injEq] at h
          obtain ⟨rfl, rfl⟩ := h
          exact okE_arrow okPs_nil (okS_block (ih.bbt _ _ _ hb))
        · simp only [bindE_ok] at h
          obtain ⟨⟨e₁, s₂⟩, he, h⟩ := h
          simp only [Except.ok.injEq, Prod.mk.injEq] at h
          obtain ⟨rfl, rfl⟩ := h
          exact okE_arrow okPs_nil (okS_from_expression (ih.eft _ _ _ _ _ he))
      · -- p = some (Identifier name)
        rename_i name
        have hps : okPs [Parameter.mk name none] := okPs_singleton (okP_mk _ okOE_none)
        simp only [ok_bindE, bindE_ok] at h
        obtain ⟨⟨t, s₁⟩, -, h⟩ := h
        split at h
        · simp only [bindE_ok] at h
          obtain ⟨⟨body, s₂⟩, hb, h⟩ := h
          simp only [Except.ok.injEq, Prod.mk.injEq] at h
          obtain ⟨rfl, rfl⟩ := h
          exact okE_arrow hps (okS_block (ih.bbt _ _ _ hb))
        · simp only [bindE_ok] at h
          obtain ⟨⟨e₁, s₂⟩, he, h⟩ := h
          simp only [Except.ok.injEq, Prod.mk.injEq] at h
          obtain ⟨rfl, rfl⟩ := h
          exact okE_arrow hps (okS_from_expression (ih.eft _ _ _ _ _ he))
      · -- p = some (Binary true Assign left right)
        have hbin : okE _ := hp
        have hio := okE_binary_inv hbin
        split at h
        · -- left = Identifier value
          simp only [ok_bindE, bindE_ok] at h
          obtain ⟨⟨t, s₁⟩, -, h⟩ := h
          split at h
          · simp only [bindE_ok] at h
            obtain ⟨⟨body, s₂⟩, hb, h⟩ := h
            simp only [Except.ok.injEq, Prod.mk.injEq] at h
            obtain ⟨rfl, rfl⟩ := h
            exact okE_arrow (okPs_singleton (okP_mk _ (okOE_some hio.2)))
              (okS_block (ih.bbt _ _ _ hb))
          · simp only [bindE_ok] at h
            obtain ⟨⟨e₁, s₂⟩, he, h⟩ := h
            simp only [Except.ok.injEq, Prod.mk.injEq] at h
            obtain ⟨rfl, rfl⟩ := h
            exact okE_arrow (okPs_singleton (okP_mk _ (okOE_some hio.2)))
              (okS_from_expression (ih.eft _ _ _ _ _ he))
        · simp [bindE_ok] at h
      · -- p = some (Sequence list)
        have hes := okE_sequence_inv hp
        simp only [bindE_ok] at h
        obtain ⟨params, hpar, h⟩ := h
        have hps := arrow_params_ok hpar hes
        obtain ⟨⟨t, s₁⟩, -, h⟩ := h
        split at h
        · simp only [bindE_ok] at h
          obtain ⟨⟨body, s₂⟩, hb, h⟩ := h
          simp only [Except.ok.injEq, Prod.mk.injEq] at h
          obtain ⟨rfl, rfl⟩ := h
          exact okE_arrow hps (okS_block (ih.bbt _ _ _ hb))
        · simp only [bindE_ok] at h
          obtain ⟨⟨e₁, s₂⟩, he, h⟩ := h
          simp only [Except.ok.injEq, Prod.mk.injEq] at h
          obtain ⟨rfl, rfl⟩ := h
          exact okE_arrow hps (okS_from_expression (ih.eft _ _ _ _ _ he))
      · simp [bindE_ok] at h
  pre := by
    intro op s e s' h
    rw [prefix_expression] at h
    split at h
    · simp at h
    · simp only [bindE_ok] at h
      obtain ⟨⟨e₁, s₁⟩, he, h⟩ := h
      simp only [Except.ok.injEq, Prod.mk.injEq] at h
      obtain ⟨rfl, rfl⟩ := h
      exact okE_prefix (ih.expr _ _ _ _ he)
  inf := by
    intro left bp op s e s' h hleft
    rw [infix_expression.eq_def] at h
    split at h
    · exact Except.noConfusion h
    · rename_i fx heq
      obtain rfl : fx = f := by omega
      split at h
      · -- Increment
        simp only [Except.ok.injEq, Prod.mk.injEq] at h
        obtain ⟨rfl, rfl⟩ := h
        exact okE_postfix hleft
      · -- Decrement
        simp only [Except.ok.injEq, Prod.mk.injEq] at h
        obtain ⟨rfl, rfl⟩ := h
        exact okE_postfix hleft
      · -- Accessor
        simp only [bindE_ok] at h
        obtain ⟨⟨t, s₁⟩, -, h⟩ := h
        split at h
        · simp only [Except.ok.injEq, Prod.mk.injEq] at h
          obtain ⟨rfl, rfl⟩ := h
          exact okE_member hleft
        · split at h
          · simp only [Except.ok.injEq, Prod.mk.injEq] at h
            obtain ⟨rfl, rfl⟩ := h
            exact okE_member hleft
          · exact Except.noConfusion h
      · -- Conditional
        simp only [bindE_ok] at h
        obtain ⟨⟨c, s₁⟩, hc, h⟩ := h
        obtain ⟨⟨u, s₂⟩, -, h⟩ := h
        obtain ⟨⟨a, s₃⟩, ha, h⟩ := h
        simp only [Except.ok.injEq, Prod.mk.injEq] at h
        obtain ⟨rfl, rfl⟩ := h
        exact okE_conditional hleft (ih.expr _ _ _ _ hc) (ih.expr _ _ _ _ ha)
      · -- FatArrow
        exact ih.arrow _ _ _ _ h (okOE_some hleft)
      · -- plain infix
        split at h
        · exact Except.noConfusion h
        · simp only [bindE_ok] at h
          obtain ⟨⟨right, s₁⟩, hr, h⟩ := h
          simp only [Except.ok.injEq, Prod.mk.injEq] at h
          obtain ⟨rfl, rfl⟩ := h
          exact okE_binary hleft (ih.expr _ _ _ _ hr)
  fe := by
    intro s e s' h
    rw [function_expression] at h
    simp only [bindE_ok] at h
    obtain ⟨⟨t, s₁⟩, -, h⟩ := h
    split at h
    · simp only [ok_bindE, bindE_ok] at h
      obtain ⟨⟨u, s₂⟩, -, h⟩ := h
      obtain ⟨⟨ps, s₃⟩, hps, h⟩ := h
      obtain ⟨⟨body, s₄⟩, hb, h⟩ := h
      simp only [Except.ok.injEq, Prod.mk.injEq] at h
      obtain ⟨rfl, rfl⟩ := h
      exact okE_function (ih.pl _ _ _ hps) (ih.bb _ _ _ hb)
    · simp only [ok_bindE, bindE_ok] at h
      obtain ⟨⟨ps, s₃⟩, hps, h⟩ := h
      obtain ⟨⟨body, s₄⟩, hb, h⟩ := h
      simp only [Except.ok.injEq, Prod.mk.injEq] at h
      obtain ⟨rfl, rfl⟩ := h
      exact okE_function (ih.pl _ _ _ hps) (ih.bb _ _ _ hb)
    · simp [bindE_ok] at h
  tmpl_items := by
    intro exprs quasis kind s es qs s' h hl
    rw [template_expression_items.eq_def] at h
    split at h
    · exact Except.noConfusion h
    · rename_i fx heq
      obtain rfl : fx = f := by omega
      split at h
      · -- Open
        simp only [bindE_ok] at h
        obtain ⟨⟨e₁, s₁⟩, he, h⟩ := h
        obtain ⟨⟨u, s₂⟩, -, h⟩ := h
        obtain ⟨⟨k₁, s₃⟩, -, h⟩ := h
        have hrec := ih.tmpl_items _ _ _ _ _ _ _ h (okEs_snoc hl (ih.soe _ _ _ he))
        refine ⟨hrec.1, ?_⟩
        have hlen := hrec.2
        simp only [List.length_append, List.length_cons, List.length_nil] at hlen ⊢
        omega
      · -- Closed
        simp only [Except.ok.injEq, Prod.mk.injEq] at h
        obtain ⟨⟨rfl, rfl⟩, rfl⟩ := h
        refine ⟨hl, ?_⟩
        simp only [List.length_append, List.length_cons, List.length_nil]
        omega
  tmpl := by
    intro tag kind s e s' h htag
    rw [template_expression] at h
    simp only [bindE_ok] at h
    obtain ⟨⟨⟨es, qs⟩, s₁⟩, hi, h⟩ := h
    simp only [Except.ok.injEq, Prod.mk.injEq] at h
    obtain ⟨rfl, rfl⟩ := h
    have hrec := ih.tmpl_items _ _ _ _ _ _ _ hi okEs_nil
    refine okE_template ?_ htag hrec.1
    have := hrec.2
    simp only [List.length_nil] at this
    omega
  paren := by
    intro s e s' h
    rw [paren_expression] at h
    simp only [bindE_ok] at h
    obtain ⟨⟨t, s₁⟩, -, h⟩ := h
    split at h
    · simp only [bindE_ok] at h
      obtain ⟨⟨u, s₂⟩, -, h⟩ := h
      exact ih.arrow _ _ _ _ h okOE_none
    · simp only [bindE_ok] at h
      obtain ⟨⟨e₁, s₂⟩, he, h⟩ := h
      obtain ⟨⟨e₂, s₃⟩, hs, h⟩ := h
      obtain ⟨⟨u, s₄⟩, -, h⟩ := h
      simp only [Except.ok.injEq, Prod.mk.injEq] at h
      obtain ⟨rfl, rfl⟩ := h
      exact okE_parenthesize (ih.so _ _ _ _ hs (ih.eft _ _ _ _ _ he))
  soe := by
    intro s e s' h
    rw [sequence_or_expression] at h
    simp only [bindE_ok] at h
    obtain ⟨⟨t, s₁⟩, -, h⟩ := h
    exact ih.soet _ _ _ _ h
  soet := by
    intro t s e s' h
    rw [sequence_or_expression_from_token] at h
    simp only [bindE_ok] at h
    obtain ⟨⟨e₁, s₁⟩, he, h⟩ := h
    exact ih.so _ _ _ _ h (ih.eft _ _ _ _ _ he)
  soi := by
    intro list s e s' h hl hlen
    rw [sequence_or_items] at h
    simp only [bindE_ok] at h
    obtain ⟨⟨t, s₁⟩, -, h⟩ := h
    split at h
    · simp only [bindE_ok] at h
      obtain ⟨⟨e₁, s₂⟩, he, h⟩ := h
      refine ih.soi _ _ _ _ h (okEs_snoc hl (ih.expr _ _ _ _ he)) ?_
      simp only [List.length_append, List.length_cons, List.length_nil]
      omega
    · simp only [Except.ok.injEq, Prod.mk.injEq] at h
      obtain ⟨rfl, rfl⟩ := h
      exact okE_sequence hlen hl
  so := by
    intro first s e s' h hf
    rw [sequence_or] at h
    simp only [bindE_ok] at h
    obtain ⟨⟨t, s₁⟩, -, h⟩ := h
    split at h
    · simp only [bindE_ok] at h
      obtain ⟨⟨second, s₂⟩, hsec, h⟩ := h
      refine ih.soi _ _ _ _ h (okEs_pair hf (ih.expr _ _ _ _ hsec)) (by simp)
    · simp only [Except.ok.injEq, Prod.mk.injEq] at h
      obtain ⟨rfl, rfl⟩ := h
      exact hf
  el_items := by
    intro list s es s' h hl
    rw [expression_list_items] at h
    simp only [bindE_ok] at h
    obtain ⟨⟨t, s₁⟩, -, h⟩ := h
    split at h
    · simp only [Except.ok.injEq, Prod.mk.injEq] at h
      obtain ⟨rfl, rfl⟩ := h
      exact hl
    · simp only [bindE_ok] at h
      obtain ⟨⟨e, s₂⟩, he, h⟩ := h
      obtain ⟨⟨t2, s₃⟩, -, h⟩ := h
      have hok := ih.eft _ _ _ _ _ he
      split at h
      · simp only [Except.ok.injEq, Prod.mk.injEq] at h
        obtain ⟨rfl, rfl⟩ := h
        exact okEs_snoc hl hok
      · exact ih.el_items _ _ _ _ h (okEs_snoc hl hok)
      · simp at h
  el := by
    intro s es s' h
    rw [expression_list] at h
    exact ih.el_items _ _ _ _ h okEs_nil
  expr := by
    intro lbp s e s' h
    rw [expression] at h
    simp only [bindE_ok] at h
    obtain ⟨⟨t, s₁⟩, -, h⟩ := h
    exact ih.eft _ _ _ _ _ h
  eft := by
    intro t lbp s e s' h
    rw [expression_from_token.eq_def] at h
    split at h
    · exact Except.noConfusion h
    · rename_i fx heq
      obtain rfl : fx = f := by omega
      split at h
      · simp only [ok_bindE] at h
        exact ih.ce _ _ _ _ _ h okE_leaf_this
      · simp only [ok_bindE] at h
        exact ih.ce _ _ _ _ _ h (okE_leaf_literal _)
      · simp only [ok_bindE] at h
        exact ih.ce _ _ _ _ _ h (okE_leaf_identifier _)
      · simp only [bindE_ok] at h
        obtain ⟨⟨left, s₁⟩, hre, h⟩ := h
        exact ih.ce _ _ _ _ _ h (regular_expression_ok hre)
      · simp only [bindE_ok] at h
        obtain ⟨⟨left, s₁⟩, hp, h⟩ := h
        exact ih.ce _ _ _ _ _ h (ih.pre _ _ _ _ hp)
      · simp only [bindE_ok] at h
        obtain ⟨⟨left, s₁⟩, hp, h⟩ := h
        exact ih.ce _ _ _ _ _ h (ih.paren _ _ _ hp)
      · simp only [bindE_ok] at h
        obtain ⟨⟨left, s₁⟩, hp, h⟩ := h
        exact ih.ce _ _ _ _ _ h (ih.arr _ _ _ hp)
      · simp only [bindE_ok] at h
        obtain ⟨⟨left, s₁⟩, hp, h⟩ := h
        exact ih.ce _ _ _ _ _ h (ih.oe _ _ _ hp)
      · simp only [bindE_ok] at h
        obtain ⟨⟨left, s₁⟩, hp, h⟩ := h
        exact ih.ce _ _ _ _ _ h (ih.fe _ _ _ hp)
      · simp only [bindE_ok] at h
        obtain ⟨⟨left, s₁⟩, hp, h⟩ := h
        exact ih.ce _ _ _ _ _ h (ih.tmpl _ _ _ _ _ hp okOE_none)
      · simp [bindE_ok] at h
  ce := by
    intro left lbp s e s' h hleft
    rw [complex_expression] at h
    simp only [bindE_ok] at h
    obtain ⟨⟨t, s₁⟩, -, h⟩ := h
    split at h
    · split at h
      · simp only [Except.ok.injEq, Prod.mk.injEq] at h
        obtain ⟨rfl, rfl⟩ := h
        exact hleft
      · simp only [bindE_ok] at h
        obtain ⟨⟨l₁, s₂⟩, hi, h⟩ := h
        exact ih.ce _ _ _ _ _ h (ih.inf _ _ _ _ _ _ hi hleft)
    · split at h
      · simp only [Except.ok.injEq, Prod.mk.injEq] at h
        obtain ⟨rfl, rfl⟩ := h
        exact hleft
      · simp only [bindE_ok] at h
        obtain ⟨⟨args, s₂⟩, ha, h⟩ := h
        exact ih.ce _ _ _ _ _ h (okE_call hleft (ih.el _ _ _ ha))
    · split at h
      · simp only [Except.ok.injEq, Prod.mk.injEq] at h
        obtain ⟨rfl, rfl⟩ := h
        exact hleft
      · simp only [bindE_ok] at h
        obtain ⟨⟨prop, s₂⟩, hpr, h⟩ := h
        obtain ⟨⟨u, s₃⟩, -, h⟩ := h
        exact ih.ce _ _ _ _ _ h (okE_computed hleft (ih.soe _ _ _ hpr))
    · split at h
      · simp only [Except.ok.injEq, Prod.mk.injEq] at h
        obtain ⟨rfl, rfl⟩ := h
        exact hleft
      · simp only [bindE_ok] at h
        obtain ⟨⟨e₁, s₂⟩, ht, h⟩ := h
        exact ih.ce _ _ _ _ _ h (ih.tmpl _ _ _ _ _ ht (okOE_some hleft))
    · simp only [Except.ok.injEq, Prod.mk.injEq] at h
      obtain ⟨rfl, rfl⟩ := h
      exact hleft
  vd := by
    intro kind s st s' h
    rw [variable_declaration] at h
    simp only [bindE_ok] at h
    obtain ⟨⟨ds, s₁⟩, hds, h⟩ := h
    simp only [Except.ok.injEq, Prod.mk.injEq] at h
    obtain ⟨rfl, rfl⟩ := h
    exact okS_vdecl (ih.vds _ _ _ hds)
  vdi := by
    intro list s ds s' h hl
    rw [variable_declarators_items] at h
    simp only [bindE_ok] at h
    obtain ⟨⟨name, s₁⟩, -, h⟩ := h
    obtain ⟨⟨t, s₂⟩, -, h⟩ := h
    split at h
    · -- with initializer
      simp only [ok_bindE, bindE_ok] at h
      obtain ⟨⟨e₁, s₃⟩, he, h⟩ := h
      obtain ⟨⟨t2, s₄⟩, -, h⟩ := h
      have hd : okD (Declarator.mk name (some e₁)) :=
        okD_mk _ (okOE_some (ih.expr _ _ _ _ he))
      split at h
      · exact ih.vdi _ _ _ _ h (okDs_snoc hl hd)
      · simp only [Except.ok.injEq, Prod.mk.injEq] at h
        obtain ⟨rfl, rfl⟩ := h
        exact okDs_snoc hl hd
    · -- without initializer
      simp only [ok_bindE, bindE_ok] at h
      obtain ⟨⟨t2, s₄⟩, -, h⟩ := h
      have hd : okD (Declarator.mk name none) := okD_mk _ okOE_none
      split at h
      · exact ih.vdi _ _ _ _ h (okDs_snoc hl hd)
      · simp only [Except.ok.injEq, Prod.mk.injEq] at h
        obtain ⟨rfl, rfl⟩ := h
        exact okDs_snoc hl hd
  vds := by
    intro s ds s' h
    rw [variable_declarators] at h
    exact ih.vdi _ _ _ _ h okDs_nil
  vdst := by
    intro kind s st s' h
    rw [variable_declaration_statement] at h
    simp only [bindE_ok] at h
    obtain ⟨⟨st₁, s₁⟩, hst, h⟩ := h
    obtain ⟨⟨u, s₂⟩, -, h⟩ := h
    simp only [Except.ok.injEq, Prod.mk.injEq] at h
    obtain ⟨rfl, rfl⟩ := h
    exact ih.vd _ _ _ _ hst
  les := by
    intro label s st s' h
    rw [labeled_or_expression_statement] at h
    simp only [bindE_ok] at h
    obtain ⟨⟨t, s₁⟩, -, h⟩ := h
    split at h
    · simp only [bindE_ok] at h
      obtain ⟨⟨body, s₂⟩, hb, h⟩ := h
      simp only [Except.ok.injEq, Prod.mk.injEq] at h
      obtain ⟨rfl, rfl⟩ := h
      exact okS_labeled (ih.exs _ _ _ hb)
    · simp only [bindE_ok] at h
      obtain ⟨⟨e₁, s₂⟩, hc, h⟩ := h
      obtain ⟨⟨e₂, s₃⟩, hs, h⟩ := h
      obtain ⟨⟨u, s₄⟩, -, h⟩ := h
      simp only [Except.ok.injEq, Prod.mk.injEq] at h
      obtain ⟨rfl, rfl⟩ := h
      exact okS_from_expression (ih.so _ _ _ _ hs (ih.ce _ _ _ _ _ hc (okE_leaf_identifier _)))
  exsta := by
    intro t s st s' h
    rw [expression_statement] at h
    simp only [bindE_ok] at h
    obtain ⟨⟨e₁, s₁⟩, he, h⟩ := h
    obtain ⟨⟨u, s₂⟩, -, h⟩ := h
    simp only [Except.ok.injEq, Prod.mk.injEq] at h
    obtain ⟨rfl, rfl⟩ := h
    exact okS_from_expression (ih.soet _ _ _ _ he)
  ret := by
    intro s st s' h
    rw [return_statement] at h
    simp only [bindE_ok] at h
    obtain ⟨⟨t, s₁⟩, -, h⟩ := h
    split at h
    · simp only [ok_bindE, bindE_ok] at h
      obtain ⟨⟨u, s₂⟩, -, h⟩ := h
      simp only [Except.ok.injEq, Prod.mk.injEq] at h
      obtain ⟨rfl, rfl⟩ := h
      exact okS_return okOE_none
    · simp only [ok_bindE, bindE_ok] at h
      obtain ⟨⟨u, s₂⟩, -, h⟩ := h
      simp only [Except.ok.injEq, Prod.mk.injEq] at h
      obtain ⟨rfl, rfl⟩ := h
      exact okS_return okOE_none
    · split at h
      · simp only [ok_bindE, bindE_ok] at h
        obtain ⟨⟨u, s₂⟩, -, h⟩ := h
        simp only [Except.ok.injEq, Prod.mk.injEq] at h
        obtain ⟨rfl, rfl⟩ := h
        exact okS_return okOE_none
      · simp only [ok_bindE, bindE_ok] at h
        obtain ⟨⟨e₁, s₂⟩, he, h⟩ := h
        obtain ⟨⟨u, s₃⟩, -, h⟩ := h
        simp only [Except.ok.injEq, Prod.mk.injEq] at h
        obtain ⟨rfl, rfl⟩ := h
        exact okS_return (okOE_some (ih.soe _ _ _ he))
  thr := by
    intro s st s' h
    rw [throw_statement] at h
    simp only [bindE_ok] at h
    obtain ⟨⟨v, s₁⟩, hv, h⟩ := h
    obtain ⟨⟨u, s₂⟩, -, h⟩ := h
    simp only [Except.ok.injEq, Prod.mk.injEq] at h
    obtain ⟨rfl, rfl⟩ := h
    exact okS_throw (ih.soe _ _ _ hv)
  trys := by
    intro s st s' h
    rw [try_statement] at h
    simp only [bindE_ok] at h
    obtain ⟨⟨body, s₁⟩, hb, h⟩ := h
    obtain ⟨⟨u₁, s₂⟩, -, h⟩ := h
    obtain ⟨⟨u₂, s₃⟩, -, h⟩ := h
    obtain ⟨⟨err, s₄⟩, -, h⟩ := h
    obtain ⟨⟨u₃, s₅⟩, -, h⟩ := h
    obtain ⟨⟨handler, s₆⟩, hh, h⟩ := h
    simp only [Except.ok.injEq, Prod.mk.injEq] at h
    obtain ⟨rfl, rfl⟩ := h
    exact okS_try (ih.exs _ _ _ hb) (ih.exs _ _ _ hh)
  brk := by
    intro s st s' h
    rw [break_statement] at h
    simp only [bindE_ok] at h
    obtain ⟨⟨t, s₁⟩, -, h⟩ := h
    split at h
    · simp only [ok_bindE, bindE_ok] at h
      obtain ⟨⟨u, s₂⟩, -, h⟩ := h
      simp only [Except.ok.injEq, Prod.mk.injEq] at h
      obtain ⟨rfl, rfl⟩ := h
      exact okS_break _
    · simp only [ok_bindE, bindE_ok] at h
      obtain ⟨⟨u, s₂⟩, -, h⟩ := h
      simp only [Except.ok.injEq, Prod.mk.injEq] at h
      obtain ⟨rfl, rfl⟩ := h
      exact okS_break _
    · split at h
      · simp only [ok_bindE, bindE_ok] at h
        obtain ⟨⟨u, s₂⟩, -, h⟩ := h
        simp only [Except.ok.injEq, Prod.mk.injEq] at h
        obtain ⟨rfl, rfl⟩ := h
        exact okS_break _
      · simp only [ok_bindE, bindE_ok] at h
        obtain ⟨⟨n, s₂⟩, -, h⟩ := h
        obtain ⟨⟨u, s₃⟩, -, h⟩ := h
        simp only [Except.ok.injEq, Prod.mk.injEq] at h
        obtain ⟨rfl, rfl⟩ := h
        exact okS_break _
  ifs := by
    intro s st s' h
    rw [if_statement] at h
    simp only [bindE_ok] at h
    obtain ⟨⟨u₁, s₁⟩, -, h⟩ := h
    obtain ⟨⟨test, s₂⟩, ht, h⟩ := h
    obtain ⟨⟨u₂, s₃⟩, -, h⟩ := h
    obtain ⟨⟨conq, s₄⟩, hc, h⟩ := h
    obtain ⟨⟨t, s₅⟩, -, h⟩ := h
    split at h
    · simp only [ok_bindE, bindE_ok] at h
      obtain ⟨⟨a, s₆⟩, ha, h⟩ := h
      simp only [Except.ok.injEq, Prod.mk.injEq] at h
      obtain ⟨rfl, rfl⟩ := h
      exact okS_if (ih.expr _ _ _ _ ht) (ih.exs _ _ _ hc) (okOS_some (ih.exs _ _ _ ha))
    · simp only [ok_bindE, Except.ok.injEq, Prod.mk.injEq] at h
      obtain ⟨rfl, rfl⟩ := h
      exact okS_if (ih.expr _ _ _ _ ht) (ih.exs _ _ _ hc) okOS_none
  whs := by
    intro s st s' h
    rw [while_statement] at h
    simp only [bindE_ok] at h
    obtain ⟨⟨u₁, s₁⟩, -, h⟩ := h
    obtain ⟨⟨test, s₂⟩, ht, h⟩ := h
    obtain ⟨⟨u₂, s₃⟩, -, h⟩ := h
    obtain ⟨⟨body, s₄⟩, hb, h⟩ := h
    simp only [Except.ok.injEq, Prod.mk.injEq] at h
    obtain ⟨rfl, rfl⟩ := h
    exact okS_while (ih.expr _ _ _ _ ht) (ih.exs _ _ _ hb)
  fors := by
    intro s st s' h
    rw [for_statement] at h
    simp only [bindE_ok] at h
    obtain ⟨⟨u₁, s₁⟩, -, h⟩ := h
    obtain ⟨⟨t, s₂⟩, -, h⟩ := h
    split at h
    · exact ih.forsr _ _ _ _ h okOS_none
    · simp only [bindE_ok] at h
      obtain ⟨⟨ds, s₃⟩, hds, h⟩ := h
      split at h
      · rename_i heq
        subst heq
        have hio := okE_binary_inv (okD_some_inv (okDs_singleton_inv (ih.vds _ _ _ hds)))
        exact ih.fifp _ _ _ _ _ h
          (okS_vdecl (okDs_singleton (okD_mk _ (okOE_some hio.1)))) hio.2
      · exact ih.forsi _ _ _ _ h (okS_vdecl (ih.vds _ _ _ hds))
    · simp only [bindE_ok] at h
      obtain ⟨⟨e, s₃⟩, he, h⟩ := h
      split at h
      · rename_i heq
        subst heq
        have hio := okE_binary_inv (ih.soet _ _ _ _ he)
        exact ih.fifp _ _ _ _ _ h (okS_from_expression hio.1) hio.2
      · exact ih.forsi _ _ _ _ h (okS_from_expression (ih.soet _ _ _ _ he))
  forsi := by
    intro init s st s' h hinit
    rw [for_statement_with_init] at h
    simp only [bindE_ok] at h
    obtain ⟨⟨t, s₁⟩, -, h⟩ := h
    split at h
    · exact ih.fis _ _ _ _ h hinit
    · split at h
      · exact Except.noConfusion h
      · exact ih.fos _ _ _ _ h hinit
    · exact ih.forsr _ _ _ _ h (okOS_some hinit)
    · exact Except.noConfusion h
  forsr := by
    intro init s st s' h hinit
    rw [for_statement_rest] at h
    simp only [bindE_ok] at h
    obtain ⟨⟨t, s₁⟩, -, h⟩ := h
    split at h
    · -- no test
      simp only [ok_bindE, bindE_ok] at h
      split at h
      · rename_i hc
        simp at hc
      · simp only [bindE_ok] at h
        obtain ⟨⟨t2, s₃⟩, -, h⟩ := h
        split at h
        · simp only [bindE_ok] at h
          obtain ⟨⟨body, s₅⟩, hb, h⟩ := h
          simp only [Except.ok.injEq, Prod.mk.injEq] at h
          obtain ⟨rfl, rfl⟩ := h
          exact okS_for hinit okOE_none okOE_none (ih.exs _ _ _ hb)
        · simp only [bindE_ok] at h
          obtain ⟨⟨e₁, s₄⟩, he, h⟩ := h
          split at h
          · simp only [bindE_ok] at h
            obtain ⟨⟨u₂, s₅⟩, -, h⟩ := h
            obtain ⟨⟨body, s₆⟩, hb, h⟩ := h
            simp only [Except.ok.injEq, Prod.mk.injEq] at h
            obtain ⟨rfl, rfl⟩ := h
            exact okS_for hinit okOE_none (okOE_some (ih.soet _ _ _ _ he)) (ih.exs _ _ _ hb)
          · rename_i hc
            simp at hc
    · -- test present
      simp only [ok_bindE, bindE_ok] at h
      obtain ⟨⟨e₀, s₂⟩, he0, h⟩ := h
      split at h
      · simp only [bindE_ok] at h
        obtain ⟨⟨u₁, s₃⟩, -, h⟩ := h
        obtain ⟨⟨t2, s₄⟩, -, h⟩ := h
        split at h
        · split at h
          · rename_i hc
            simp at hc
          · simp only [bindE_ok] at h
            obtain ⟨⟨body, s₆⟩, hb, h⟩ := h
            simp only [Except.ok.injEq, Prod.mk.injEq] at h
            obtain ⟨rfl, rfl⟩ := h
            exact okS_for hinit (okOE_some (ih.soet _ _ _ _ he0)) okOE_none (ih.exs _ _ _ hb)
        · simp only [bindE_ok] at h
          obtain ⟨⟨e₁, s₅⟩, he, h⟩ := h
          split at h
          · simp only [bindE_ok] at h
            obtain ⟨⟨u₂, s₆⟩, -, h⟩ := h
            obtain ⟨⟨body, s₇⟩, hb, h⟩ := h
            simp only [Except.ok.injEq, Prod.mk.injEq] at h
            obtain ⟨rfl, rfl⟩ := h
            exact okS_for hinit (okOE_some (ih.soet _ _ _ _ he0)) (okOE_some (ih.soet _ _ _ _ he))
              (ih.exs _ _ _ hb)
          · rename_i hc
            simp at hc
      · rename_i hc
        simp at hc
  fifp := by
    intro left right s st s' h hleft hright
    rw [for_in_statement_from_parts] at h
    simp only [bindE_ok] at h
    obtain ⟨⟨u, s₁⟩, -, h⟩ := h
    obtain ⟨⟨body, s₂⟩, hb, h⟩ := h
    simp only [Except.ok.injEq, Prod.mk.injEq] at h
    obtain ⟨rfl, rfl⟩ := h
    exact okS_forin hleft hright (ih.exs _ _ _ hb)
  fis := by
    intro left s st s' h hleft
    rw [for_in_statement] at h
    simp only [bindE_ok] at h
    obtain ⟨⟨right, s₁⟩, hr, h⟩ := h
    obtain ⟨⟨u, s₂⟩, -, h⟩ := h
    obtain ⟨⟨body, s₃⟩, hb, h⟩ := h
    simp only [Except.ok.injEq, Prod.mk.injEq] at h
    obtain ⟨rfl, rfl⟩ := h
    exact okS_forin hleft (ih.soe _ _ _ hr) (ih.exs _ _ _ hb)
  fos := by
    intro left s st s' h hleft
    rw [for_of_statement] at h
    simp only [bindE_ok] at h
    obtain ⟨⟨right, s₁⟩, hr, h⟩ := h
    obtain ⟨⟨u, s₂⟩, -, h⟩ := h
    obtain ⟨⟨body, s₃⟩, hb, h⟩ := h
    simp only [Except.ok.injEq, Prod.mk.injEq] at h
    obtain ⟨rfl, rfl⟩ := h
    exact okS_forof hleft (ih.soe _ _ _ hr) (ih.exs _ _ _ hb)
  pli := by
    intro dp list s ps s' h hl
    rw [parameter_list_items] at h
    simp only [bindE_ok] at h
    obtain ⟨⟨t, s₁⟩, -, h⟩ := h
    split at h
    · simp only [Except.ok.injEq, Prod.mk.injEq] at h
      obtain ⟨rfl, rfl⟩ := h
      exact hl
    · simp only [bindE_ok] at h
      obtain ⟨⟨t2, s₂⟩, -, h⟩ := h
      split at h
      · simp only [bindE_ok] at h
        obtain ⟨⟨e, s₃⟩, he, h⟩ := h
        exact ih.plsep _ _ _ _ _ h
          (okPs_snoc hl (okP_mk _ (okOE_some (ih.expr _ _ _ _ he))))
      · split at h
        · exact Except.noConfusion h
        · exact ih.plsep _ _ _ _ _ h (okPs_snoc hl (okP_mk _ okOE_none))
    · exact Except.noConfusion h
  plsep := by
    intro dp list s ps s' h hl
    rw [parameter_list_sep] at h
    simp only [bindE_ok] at h
    obtain ⟨⟨t, s₁⟩, -, h⟩ := h
    split at h
    · simp only [Except.ok.injEq, Prod.mk.injEq] at h
      obtain ⟨rfl, rfl⟩ := h
      exact hl
    · exact ih.pli _ _ _ _ _ h hl
    · exact Except.noConfusion h
  pl := by
    intro s ps s' h
    rw [parameter_list] at h
    exact ih.pli _ _ _ _ _ h okPs_nil
  fsta := by
    intro s st s' h
    rw [function_statement] at h
    simp only [bindE_ok] at h
    obtain ⟨⟨name, s₁⟩, -, h⟩ := h
    obtain ⟨⟨u, s₂⟩, -, h⟩ := h
    obtain ⟨⟨ps, s₃⟩, hps, h⟩ := h
    obtain ⟨⟨body, s₄⟩, hb, h⟩ := h
    simp only [Except.ok.injEq, Prod.mk.injEq] at h
    obtain ⟨rfl, rfl⟩ := h
    exact okS_function (ih.pl _ _ _ hps) (ih.bb _ _ _ hb)
  cm := by
    intro key b s m s' h hk
    rw [class_member] at h
    simp only [bindE_ok] at h
    obtain ⟨⟨t, s₁⟩, -, h⟩ := h
    split at h
    · split at h
      · simp only [bindE_ok] at h
        obtain ⟨⟨ps, s₂⟩, hps, h⟩ := h
        obtain ⟨⟨body, s₃⟩, hb, h⟩ := h
        simp only [Except.ok.injEq, Prod.mk.injEq] at h
        obtain ⟨rfl, rfl⟩ := h
        exact okCM_constructor (ih.pl _ _ _ hps) (ih.bb _ _ _ hb)
      · simp only [bindE_ok] at h
        obtain ⟨⟨ps, s₂⟩, hps, h⟩ := h
        obtain ⟨⟨body, s₃⟩, hb, h⟩ := h
        simp only [Except.ok.injEq, Prod.mk.injEq] at h
        obtain ⟨rfl, rfl⟩ := h
        exact okCM_method hk (ih.pl _ _ _ hps) (ih.bb _ _ _ hb)
    · simp only [bindE_ok] at h
      obtain ⟨⟨v, s₂⟩, hv, h⟩ := h
      simp only [Except.ok.injEq, Prod.mk.injEq] at h
      obtain ⟨rfl, rfl⟩ := h
      exact okCM_property hk (ih.expr _ _ _ _ hv)
    · exact Except.noConfusion h
  cbi := by
    intro ms s res s' h hl
    rw [class_body_items] at h
    simp only [bindE_ok] at h
    obtain ⟨⟨t, s₁⟩, -, h⟩ := h
    split at h
    · -- static prefix
      simp only [ok_bindE, bindE_ok] at h
      obtain ⟨⟨t2, s₂⟩, -, h⟩ := h
      split at h
      · exact ih.cbi _ _ _ _ h hl
      · simp only [Except.ok.injEq, Prod.mk.injEq] at h
        obtain ⟨rfl, rfl⟩ := h
        exact hl
      · exact ih.cbm _ _ _ _ _ _ h hl (okCK_number _)
      · exact ih.cbm _ _ _ _ _ _ h hl (okCK_binary _)
      · exact ih.cbm _ _ _ _ _ _ h hl (okCK_literal _)
      · simp only [bindE_ok] at h
        obtain ⟨⟨e, s₃⟩, he, h⟩ := h
        obtain ⟨⟨u, s₄⟩, -, h⟩ := h
        exact ih.cbm _ _ _ _ _ _ h hl (okCK_computed (ih.soe _ _ _ he))
      · split at h
        · exact ih.cbm _ _ _ _ _ _ h hl (okCK_literal _)
        · exact Except.noConfusion h
    · -- no static prefix
      simp only [ok_bindE] at h
      split at h
      · exact ih.cbi _ _ _ _ h hl
      · simp only [Except.ok.injEq, Prod.mk.injEq] at h
        obtain ⟨rfl, rfl⟩ := h
        exact hl
      · exact ih.cbm _ _ _ _ _ _ h hl (okCK_number _)
      · exact ih.cbm _ _ _ _ _ _ h hl (okCK_binary _)
      · exact ih.cbm _ _ _ _ _ _ h hl (okCK_literal _)
      · simp only [bindE_ok] at h
        obtain ⟨⟨e, s₃⟩, he, h⟩ := h
        obtain ⟨⟨u, s₄⟩, -, h⟩ := h
        exact ih.cbm _ _ _ _ _ _ h hl (okCK_computed (ih.soe _ _ _ he))
      · split at h
        · exact ih.cbm _ _ _ _ _ _ h hl (okCK_literal _)
        · exact Except.noConfusion h
  cbm := by
    intro ms key b s res s' h hl hk
    rw [class_body_member] at h
    simp only [bindE_ok] at h
    obtain ⟨⟨m, s₁⟩, hm, h⟩ := h
    exact ih.cbi _ _ _ _ h (okCMs_snoc hl (ih.cm _ _ _ _ _ hm hk))
  cls := by
    intro s st s' h
    rw [class_statement] at h
    simp only [bindE_ok] at h
    obtain ⟨⟨name, s₁⟩, -, h⟩ := h
    obtain ⟨⟨t, s₂⟩, -, h⟩ := h
    split at h
    · simp only [ok_bindE, bindE_ok] at h
      obtain ⟨⟨n, s₃⟩, -, h⟩ := h
      obtain ⟨⟨u, s₄⟩, -, h⟩ := h
      obtain ⟨⟨members, s₅⟩, hms, h⟩ := h
      simp only [Except.ok.injEq, Prod.mk.injEq] at h
      obtain ⟨rfl, rfl⟩ := h
      exact okS_class (ih.cbi _ _ _ _ hms okCMs_nil)
    · simp only [ok_bindE, bindE_ok] at h
      obtain ⟨⟨members, s₅⟩, hms, h⟩ := h
      simp only [Except.ok.injEq, Prod.mk.injEq] at h
      obtain ⟨rfl, rfl⟩ := h
      exact okS_class (ih.cbi _ _ _ _ hms okCMs_nil)
    · simp [bindE_ok] at h
  exs := by
    intro s st s' h
    rw [expect_statement] at h
    simp only [bindE_ok] at h
    obtain ⟨⟨t, s₁⟩, -, h⟩ := h
    exact ih.stm _ _ _ _ h
  stm := by
    intro t s st s' h
    rw [statement.eq_def] at h
    split at h
    · exact Except.noConfusion h
    · rename_i fx heq
      obtain rfl : fx = f := by omega
      split at h
      · simp only [Except.ok.injEq, Prod.mk.injEq] at h
        obtain ⟨rfl, rfl⟩ := h
        exact okS_empty
      · exact ih.bs _ _ _ h
      · exact ih.vdst _ _ _ _ h
      · exact ih.ret _ _ _ h
      · exact ih.brk _ _ _ h
      · exact ih.fsta _ _ _ h
      · exact ih.cls _ _ _ h
      · exact ih.ifs _ _ _ h
      · exact ih.whs _ _ _ h
      · exact ih.fors _ _ _ h
      · exact ih.les _ _ _ _ h
      · exact ih.thr _ _ _ h
      · exact ih.trys _ _ _ h
      · exact ih.exsta _ _ _ _ h
  pbi := by
    intro body s sts s' h hl
    rw [parse_body_items] at h
    simp only [bindE_ok] at h
    obtain ⟨⟨t, s₁⟩, -, h⟩ := h
    split at h
    · simp only [Except.ok.injEq, Prod.mk.injEq] at h
      obtain ⟨rfl, rfl⟩ := h
      exact hl
    · simp only [bindE_ok] at h
      obtain ⟨⟨st, s₂⟩, hst, h⟩ := h
      exact ih.pbi _ _ _ _ h (okSs_snoc hl (ih.stm _ _ _ _ hst))
  pb := by
    intro s sts s' h
    rw [parse_body] at h
    exact ih.pbi _ _ _ _ h okSs_nil

/-- The invariant package holds at every fuel level. -/
theorem masterP_all (f : Nat) : MasterP f := by
  induction f with
  | zero => exact masterP_zero
  | succ f ih => exact masterP_succ f ih



set_option maxHeartbeats 4000000
set_option maxRecDepth 10000

/-! ### Support for the claim theorems -/

/-- The element shapes accepted by `arrow_params_from_sequence`: a plain
identifier, or an assignment binary whose left side is an identifier. -/
def arrow_param_shape : Expression → Bool
  | .Binary _ .Assign (.Identifier _) _ => true
  | .Identifier _ => true
  | _ => false

/-- `arrow_params_from_sequence` succeeds exactly when every element of the
sequence has an accepted shape. -/
theorem arrow_params_shape_iff (es : List Expression) :
    (∃ ps, arrow_params_from_sequence es = .ok ps) ↔ es.all arrow_param_shape = true := by
  induction es with
  | nil =>
    simp only [arrow_params_from_sequence, List.all_nil]
    exact ⟨fun _ => trivial, fun _ => ⟨[], rfl⟩⟩
  | cons e rest ih =>
    rw [List.all_cons]
    constructor
    · rintro ⟨ps, h⟩
      rw [arrow_params_from_sequence.eq_def] at h
      split at h
      next heq => exact absurd heq (by simp)
      next e' rest' heq =>
        injection heq with he hr
        subst he
        subst hr
        split at h
        next p left right =>
          split at h
          next name =>
            simp only [ok_bindE, bindE_ok] at h
            obtain ⟨tl, htl, -⟩ := h
            have hrest := ih.1 ⟨tl, htl⟩
            simp [arrow_param_shape, hrest]
          next => simp [bindE_ok] at h
        next name =>
          simp only [ok_bindE, bindE_ok] at h
          obtain ⟨tl, htl, -⟩ := h
          have hrest := ih.1 ⟨tl, htl⟩
          simp [arrow_param_shape, hrest]
        next => simp [bindE_ok] at h
    · rintro hb
      rw [Bool.and_eq_true] at hb
      obtain ⟨tl, htl⟩ := ih.2 hb.2
      have hb1 := hb.1
      rw [arrow_params_from_sequence.eq_def]
      split
      next heq => exact absurd heq (by simp)
      next e' rest' heq =>
        injection heq with he hr
        subst he
        subst hr
        split
        next p left right =>
          split
          next name =>
            exact ⟨Parameter.mk name (some right) :: tl, by simp [ok_bindE, htl]⟩
          next hne =>
            exfalso
            rw [arrow_param_shape.eq_def] at hb1
            split at hb1
            next heq' =>
              injection heq' with h1 h2 h3 h4
              exact hne _ h3
            next heq' => exact Expression.noConfusion heq'
            next => exact Bool.noConfusion hb1
        next name =>
          exact ⟨Parameter.mk name none :: tl, by simp [ok_bindE, htl]⟩
        next hne1 hne2 =>
          exfalso
          rw [arrow_param_shape.eq_def] at hb1
          split at hb1
          · exact hne1 _ _ _ rfl
          · exact hne2 _ rfl
          · exact Bool.noConfusion hb1

/-- `true` when, once some parameter of the list carries a default value, every
later parameter carries one too (the flag records whether a default has been
seen). -/
def tailDefaultsOk : Bool → List Parameter → Bool
  | _, [] => true
  | true, p :: rest => p.default.isSome && tailDefaultsOk true rest
  | false, Parameter.mk _ none :: rest => tailDefaultsOk false rest
  | false, Parameter.mk _ (some _) :: rest => tailDefaultsOk true rest

/-- No non-defaulted parameter follows a defaulted one. -/
def goodDefaults (ps : List Parameter) : Bool :=
  tailDefaultsOk false ps

/-- The parameter-list loop only ever appends a tail that respects the
`default_params` flag it was entered with. -/
theorem parameter_list_defaults_invariant (f : Nat) :
    (∀ dp list s ps s', parameter_list_items f dp list s = .ok (ps, s') →
      ∃ t, ps = list ++ t ∧ tailDefaultsOk dp t = true) ∧
    (∀ dp list s ps s', parameter_list_sep f dp list s = .ok (ps, s') →
      ∃ t, ps = list ++ t ∧ tailDefaultsOk dp t = true) := by
  induction f with
  | zero =>
    constructor
    · intro dp list s ps s' h
      rw [parameter_list_items] at h
      exact Except.noConfusion h
    · intro dp list s ps s' h
      rw [parameter_list_sep] at h
      exact Except.noConfusion h
  | succ f ih =>
    constructor
    · intro dp list s ps s' h
      rw [parameter_list_items] at h
      simp only [bindE_ok] at h
      obtain ⟨⟨t, s₁⟩, -, h⟩ := h
      split at h
      · simp only [Except.ok.injEq, Prod.mk.injEq] at h
        obtain ⟨rfl, rfl⟩ := h
        exact ⟨[], by simp, by cases dp <;> rfl⟩
      · simp only [bindE_ok] at h
        obtain ⟨⟨t2, s₂⟩, -, h⟩ := h
        split at h
        · simp only [bindE_ok] at h
          obtain ⟨⟨e, s₃⟩, -, h⟩ := h
          obtain ⟨t', ht', htail⟩ := ih.2 _ _ _ _ _ h
          subst ht'
          refine ⟨_, List.append_assoc _ _ _, ?_⟩
          cases dp
          · simpa [tailDefaultsOk] using htail
          · simpa [tailDefaultsOk, Parameter.default] using htail
        · split at h
          · exact Except.noConfusion h
          · rename_i hdp
            obtain ⟨t', ht', htail⟩ := ih.2 _ _ _ _ _ h
            have hdf : dp = false := by revert hdp; cases dp <;> simp
            subst hdf
            subst ht'
            refine ⟨_, List.append_assoc _ _ _, ?_⟩
            simpa [tailDefaultsOk] using htail
      · exact Except.noConfusion h
    · intro dp list s ps s' h
      rw [parameter_list_sep] at h
      simp only [bindE_ok] at h
      obtain ⟨⟨t, s₁⟩, -, h⟩ := h
      split at h
      · simp only [Except.ok.injEq, Prod.mk.injEq] at h
        obtain ⟨rfl, rfl⟩ := h
        exact ⟨[], by simp, by cases dp <;> rfl⟩
      · exact ih.1 _ _ _ _ _ h
      · exact Except.noConfusion h

/-! ### The claim theorems -/

/-- C1: the claim says both for-statement parsers rewrite a single declarator
whose initializer is an `in` binary, hoisting the `in` into `ForIn` and leaving
only the left operand in the declarator. The Vec-based parser (parser.rs) does;
the arena parser (statement.rs) emits the declarator unchanged, retaining the
`in` binary inside the initializer — the two sides below diverge on
`for (let x = y in z) ;`. -/
theorem c1_for_in_rewrite_divergence :
    parse 100 "for (let x = y in z) ;" =
      .ok (Program.mk "for (let x = y in z) ;"
        [.ForIn (.VariableDeclaration .Let [Declarator.mk "x" (some (.Identifier "y"))])
          (.Identifier "z") .Empty]) ∧
    a_parse 100 "for (let x = y in z) ;" =
      .ok (AProgram.mk "for (let x = y in z) ;"
        [.ForIn (.Declaration .Let [ADeclarator.mk (.Identifier "x")
            (some (.Binary false .In (.Identifier "y") (.Identifier "z")))])
          (.Identifier "z") .Empty] []) :=
  ⟨by with_unfolding_all rfl, by with_unfolding_all rfl⟩

/-- C2: a failing production pushes the error record and substitutes the
expected family's error node (`a_handled`/`handle_error` of error.rs), and the
parse continues: on `break 5;` the break statement is replaced by
`Statement::Error`, one `UnexpectedToken` is recorded, the remainder `5;`
still parses, and the program carries source, body and errors. -/
theorem c2_error_recovery :
    (∀ {α : Type} [AToError α] (m : ME α) (s : ASt) (e : Err) (s₁ : ASt),
        m s = (.error e, s₁) → e ≠ .OutOfFuel →
        a_handled m s = (.ok AToError.toError, s₁.pushError e)) ∧
    a_parse 100 "break 5;" =
      .ok (AProgram.mk "break 5;"
        [.Error, .Expression (.Literal (.Number "5"))] [.UnexpectedToken]) := by
  constructor
  · intro α _ m s e s₁ hm hne
    unfold a_handled
    rw [hm]
    cases e with
    | UnexpectedToken => rfl
    | UnexpectedEndOfProgram => rfl
    | OutOfFuel => exact absurd rfl hne
  · with_unfolding_all rfl

/-- C3 (corrected): the semicolon check's full case split. The claim's implicit
set omits `)`: the source also accepts `ParenClose` without consuming it. -/
theorem c3_expect_semicolon_trichotomy (s : St) (t : Token) (s₁ : St)
    (h : peekT s = .ok (t, s₁)) :
    expect_semicolon s =
      if t = .Semicolon then .ok ((), s₁.consume)
      else if t = .ParenClose ∨ t = .BraceClose ∨ t = .EndOfProgram then .ok ((), s₁)
      else if s₁.asi then .ok ((), s₁)
      else .error .UnexpectedToken := by
  unfold expect_semicolon
  rw [h, ok_bindE]
  cases t <;> simp [St.asi]

/-- Witness for C3: a concrete state whose lookahead is `)`. -/
theorem c3_trichotomy_witness :
    peekT (St.init [Item.mk .ParenClose false, Item.mk .EndOfProgram false]) =
      .ok (.ParenClose, St.mk [Item.mk .EndOfProgram false] (some .ParenClose) false) ∧
    expect_semicolon (St.init [Item.mk .ParenClose false, Item.mk .EndOfProgram false]) =
      .ok ((), St.mk [Item.mk .EndOfProgram false] (some .ParenClose) false) :=
  ⟨rfl, c3_expect_semicolon_trichotomy
    (St.init [Item.mk .ParenClose false, Item.mk .EndOfProgram false]) .ParenClose
    (St.mk [Item.mk .EndOfProgram false] (some .ParenClose) false) rfl⟩

/-- Counterexample to C3 as stated: with lookahead `)` (no preceding line
terminator) the check succeeds without consuming, although `)` is neither `;`
nor `}` nor `EndOfProgram` and `asi` does not hold — the claim predicts an
unexpected-token error here. -/
theorem c3_paren_close_counterexample :
    expect_semicolon (St.init [Item.mk .ParenClose false, Item.mk .EndOfProgram false]) =
      .ok ((), St.mk [Item.mk .EndOfProgram false] (some .ParenClose) false) ∧
    (Token.ParenClose ≠ Token.Semicolon ∧ Token.ParenClose ≠ Token.BraceClose ∧
      Token.ParenClose ≠ Token.EndOfProgram ∧
      (St.mk [Item.mk .EndOfProgram false] (some .ParenClose) false).asi = false) :=
  ⟨rfl, by decide⟩

/-- C4: `(a, b = 1) => x` and `((a), (b = 1)) => x` parse to the same
`ArrowFunction` (params `a` and `b = 1`, body the expression `x`), and in
general a parenthesised sequence reinterprets as a parameter list exactly when
every element is an identifier or an assignment binary with identifier left
side. -/
theorem c4_arrow_reinterpretation :
    ((parse 100 "(a, b = 1) => x").map Program.body =
        (parse 100 "((a), (b = 1)) => x").map Program.body ∧
      (parse 100 "(a, b = 1) => x").map Program.body =
        .ok [.Expression (.ArrowFunction
          [Parameter.mk "a" none, Parameter.mk "b" (some (.Literal (.Number "1")))]
          (.Expression (.Identifier "x")))]) ∧
    ∀ es : List Expression,
      (∃ ps, arrow_params_from_sequence es = .ok ps) ↔ es.all arrow_param_shape = true :=
  ⟨⟨by with_unfolding_all rfl, by with_unfolding_all rfl⟩, arrow_params_shape_iff⟩

/-- C5: `return\n foo` parses as a value-less return followed by the
expression statement `foo`, in both parsers. -/
theorem c5_return_asi :
    parse 100 "return\n foo" = .ok (Program.mk "return\n foo"
      [.Return none, .Expression (.Identifier "foo")]) ∧
    a_parse 100 "return\n foo" = .ok (AProgram.mk "return\n foo"
      [.Return none, .Expression (.Identifier "foo")] []) :=
  ⟨by with_unfolding_all rfl, by with_unfolding_all rfl⟩

/-- C6: every accepted parameter list has its defaulted parameters forming a
suffix — once a default appears, all later parameters are defaulted — and a
non-defaulted parameter after a defaulted one is an unexpected-token error. -/
theorem c6_parameter_defaults :
    (∀ f s ps s', parameter_list f s = .ok (ps, s') → goodDefaults ps = true) ∧
    parse 100 "function f(a = 1, b) {}" =
      .error (.UnexpectedToken "function f(a = 1, b) {}") := by
  constructor
  · intro f s ps s' h
    cases f with
    | zero =>
      rw [parameter_list] at h
      exact Except.noConfusion h
    | succ f =>
      rw [parameter_list] at h
      obtain ⟨t, ht, htail⟩ := (parameter_list_defaults_invariant f).1 _ _ _ _ _ h
      rw [goodDefaults, ht]
      simpa using htail
  · with_unfolding_all rfl

/-- C7: every template expression the parser produces has one more quasi than
interpolated expressions (the `tmplOk` family checks every `Template` node of
the produced AST). -/
theorem c7_template_quasis (f : Nat) (s : St) (sts : List Statement) (s' : St)
    (h : parse_body f s = .ok (sts, s')) : tmplOkSs sts = true :=
  ((masterP_all f).pb s sts s' h).1

/-- Witness for C7: an interpolated template `a${x}b` at token level. -/
theorem c7_template_quasis_witness :
    parse_body 100 (St.init [Item.mk (.Template (.Open "a")) false,
        Item.mk (.Identifier "x") false, Item.mk .BraceClose false,
        Item.mk (.Template (.Closed "b")) false, Item.mk .Semicolon false,
        Item.mk .EndOfProgram false]) =
      .ok ([.Expression (.Template none [.Identifier "x"] ["a", "b"])],
        St.mk [] none false) ∧
    tmplOkSs [.Expression (.Template none [.Identifier "x"] ["a", "b"])] = true :=
  ⟨by with_unfolding_all rfl,
    c7_template_quasis 100
      (St.init [Item.mk (.Template (.Open "a")) false, Item.mk (.Identifier "x") false,
        Item.mk .BraceClose false, Item.mk (.Template (.Closed "b")) false,
        Item.mk .Semicolon false, Item.mk .EndOfProgram false])
      [.Expression (.Template none [.Identifier "x"] ["a", "b"])]
      (St.mk [] none false) (by with_unfolding_all rfl)⟩

/-- C8: every sequence expression in a parsed program has at least two
elements (the `seqOk` family checks every `Sequence` node of the produced
AST). -/
theorem c8_sequence_min_length (fuel : Nat) (src : String) (p : Program)
    (h : parse fuel src = .ok p) : seqOkSs p.body = true := by
  unfold parse at h
  split at h
  · exact Except.noConfusion h
  · exact Except.noConfusion h
  · exact Except.noConfusion h
  · split at h
    · simp only [Except.ok.injEq] at h
      subst h
      rename_i hpb
      exact ((masterP_all fuel).pb _ _ _ hpb).2
    · exact Except.noConfusion h
    · exact Except.noConfusion h
    · exact Except.noConfusion h

/-- Witness for C8: `(a, b);` parses to a two-element sequence. -/
theorem c8_sequence_min_length_witness :
    parse 100 "(a, b);" = .ok (Program.mk "(a, b);"
      [.Expression (.Sequence [.Identifier "a", .Identifier "b"])]) ∧
    seqOkSs [.Expression (.Sequence [.Identifier "a", .Identifier "b"])] = true :=
  ⟨by with_unfolding_all rfl,
    c8_sequence_min_length 100 "(a, b);"
      (Program.mk "(a, b);" [.Expression (.Sequence [.Identifier "a", .Identifier "b"])])
      (by with_unfolding_all rfl)⟩

/-- C9: parsing the empty source succeeds with an empty body; the arena parser
additionally reports an empty error list. -/
theorem c9_parse_empty :
    parse 100 "" = .ok (Program.mk "" []) ∧
    a_parse 100 "" = .ok (AProgram.mk "" [] []) :=
  ⟨by with_unfolding_all rfl, by with_unfolding_all rfl⟩

/-- C10: a successful `try` always carries a catch identifier and handler;
`try {}` and `try {} finally {}` are unexpected-token errors, and the
`catch ( identifier )` form parses. -/
theorem c10_try_requires_catch :
    (∀ f s st s', try_statement f s = .ok (st, s') →
        ∃ body err handler, st = .Try body err handler) ∧
    parse 100 "try {}" = .error (.UnexpectedToken "try {}") ∧
    parse 100 "try {} finally {}" = .error (.UnexpectedToken "try {} finally {}") ∧
    parse 100 "try {} catch (e) { x; }" = .ok (Program.mk "try {} catch (e) { x; }"
      [.Try (.Block []) "e" (.Block [.Expression (.Identifier "x")])]) := by
  refine ⟨?_, by with_unfolding_all rfl, by with_unfolding_all rfl, by with_unfolding_all rfl⟩
  intro f s st s' h
  cases f with
  | zero =>
    rw [try_statement] at h
    exact Except.noConfusion h
  | succ f =>
    rw [try_statement] at h
    simp only [bindE_ok] at h
    obtain ⟨⟨body, s₁⟩, -, h⟩ := h
    obtain ⟨⟨u₁, s₂⟩, -, h⟩ := h
    obtain ⟨⟨u₂, s₃⟩, -, h⟩ := h
    obtain ⟨⟨err, s₄⟩, -, h⟩ := h
    obtain ⟨⟨u₃, s₅⟩, -, h⟩ := h
    obtain ⟨⟨handler, s₆⟩, -, h⟩ := h
    simp only [Except.ok.injEq, Prod.mk.injEq] at h
    obtain ⟨rfl, rfl⟩ := h
    exact ⟨body, err, handler, rfl⟩

end HB
